import Mathlib

/-!
Verification of the `rotth` compiler (lexer → HIR parser → LIR lowering with
constant folding → x86-64 emitter) against its natural-language specification.

The Rust sources are shallowly embedded: pure data types become Lean inductive
types, the stateful `Compiler` becomes explicit state passing over a `St`
record, Rust `HashMap`s (used only through `get` / `insert` / `contains_key`)
become association lists with first-match lookup, `panic!` / `todo!` /
`unreachable!` become explicit error values, and the external constant
evaluator `eval` (a collaborator that is not part of the core) is a function
parameter.  Unbounded recursion in `Compiler::compile_const` (which can recurse
through `compile_body`) is modelled with a fuel parameter; all functions are
structurally recursive so that closed calls evaluate by `rfl` / `decide`.
-/

namespace Rotth

/-- Source ranges (`span.rs`): carried through lexing and parsing, never read
by lowering.  Modelled as a file name plus start and end offsets. -/
structure Span where
  file : String
  lo : Nat
  hi : Nat
deriving Repr, DecidableEq

/-- `hir.rs` `IConst`: immediate values.  In `hir.rs` every variant stores one
`u64` word (`Bool`/`I64` are bit-reinterpretations of the word); the word is
modelled as a `Nat` (the compiler never does arithmetic on it, so no masking
arises).  `lir.rs` additionally pattern-matches an `IConst::Str` variant (from
the repository's later `iconst.rs` snapshot, not present under `src/`), so a
string variant is included. -/
inductive IConst where
  | Bool (w : Nat)
  | U64 (w : Nat)
  | I64 (w : Nat)
  | Str (s : String)
deriving Repr, DecidableEq

/-- `hir.rs` `Type` (named `Ty` here because `Type` is a Lean sort).
`lir.rs` also matches a pointer type (`Type::Ptr => todo!()`) from the later
snapshot; it is included so that arm is representable. -/
inductive Ty where
  | bool
  | u64
  | i64
  | ptr
deriving Repr, DecidableEq

/-- `hir.rs` `Intrinsic`.  The arms matched by `lir.rs` from the later
snapshot (`ReadU8`, `WriteU8`, `PtrAdd`, `PtrSub`, `PutC`) are included; the
parser in `hir.rs` only ever produces the other seventeen. -/
inductive Intrinsic where
  | drop
  | dup
  | swap
  | over
  | compStop
  | dump
  | print
  | add
  | sub
  | divmod
  | mul
  | eq
  | ne
  | lt
  | le
  | gt
  | ge
  | readU8
  | writeU8
  | ptrAdd
  | ptrSub
  | putC
deriving Repr, DecidableEq

/-- `hir.rs` `Binding`: one entry of a `bind` group. -/
inductive Binding where
  | ignore
  | bind (name : String) (ty : Ty)
deriving Repr, DecidableEq

/-- `hir.rs` `AstKind` (with `If`, `While`, `Bind` inlined as anonymous
payloads).  `AstNode` pairs a kind with a `Span`; lowering reads only the
kind (`node.ast`), so bodies are lists of kinds here and the span component
is dropped. -/
inductive AstKind where
  | literal (c : IConst)
  | word (w : String)
  | intrinsic (i : Intrinsic)
  | iff (truth : List AstKind) (lie : Option (List AstKind))
  | whl (cond : List AstKind) (body : List AstKind)
  | bindNode (bindings : List Binding) (body : List AstKind)
deriving Repr

/-- `hir.rs` `Signature`. -/
structure Signature where
  ins : List Ty
  outs : List Ty
deriving Repr, DecidableEq

/-- `hir.rs` `Proc`. -/
structure Proc where
  signature : Signature
  body : List AstKind
deriving Repr

/-- `hir.rs` `Const`. -/
structure Konst where
  body : List AstKind
  ty : Ty
deriving Repr

/-- `hir.rs` `TopLevel`. -/
inductive TopLevel where
  | proc (p : Proc)
  | konst (c : Konst)
deriving Repr

/-- `lir.rs` `Op`: the flat LIR instruction set. -/
inductive Op where
  | push (c : IConst)
  | pushStr (i : Nat)
  | drop
  | dup
  | swap
  | over
  | readU8
  | writeU8
  | dump
  | print
  | putC
  | add
  | sub
  | divmod
  | mul
  | eq
  | ne
  | lt
  | le
  | gt
  | ge
  | proc (l : String)
  | label (l : String)
  | jump (l : String)
  | jumpF (l : String)
  | jumpT (l : String)
  | call (l : String)
  | ret
  | exit
deriving Repr, DecidableEq

/-- `lir.rs` `ComConst`: fold-cache entry, pending or folded. -/
inductive ComConst where
  | compiled (i : IConst)
  | notCompiled (c : Konst)
deriving Repr

/-- Association-list model of the `HashMap<String, ComConst>` fold cache.
The compiler uses the map only through `get`, `insert` and `contains_key`,
so first-match lookup with cons-as-insert is observationally the same. -/
def lookupConst : List (String × ComConst) → String → Option ComConst
  | [], _ => none
  | (k, v) :: rest, name => if k = name then some v else lookupConst rest name

def insertConst (name : String) (v : ComConst) (m : List (String × ComConst)) :
    List (String × ComConst) :=
  (name, v) :: m

def containsConst (m : List (String × ComConst)) (name : String) : Bool :=
  (lookupConst m name).isSome

/-- `lir.rs` `Compiler`: the threaded lowering state. -/
structure St where
  label : Nat
  currentName : String
  result : List Op
  consts : List (String × ComConst)
  strings : List String
deriving Repr

/-- `Compiler::new()`. -/
def St.new : St :=
  { label := 0, currentName := "", result := [], consts := [], strings := [] }

/-- `Compiler::with_consts_and_strings`. -/
def withConstsAndStrings (consts : List (String × ComConst))
    (strings : List String) : St :=
  { label := 0, currentName := "", result := [], consts := consts,
    strings := strings }

/-- `Compiler::emit`: push one instruction onto the growing sequence. -/
def emit (st : St) (op : Op) : St :=
  { st with result := st.result ++ [op] }

/-- Decimal digit characters of `n`, most significant first, as produced by
Rust's `format!("{}", n)`.  Implemented with a fuel-bounded accumulator loop
(structurally recursive, hence computable by `rfl`/`decide`); `decRepr`
supplies sufficient fuel. -/
def decAux : Nat → Nat → List Char → List Char
  | 0, _, acc => acc
  | fuel + 1, n, acc =>
    if n < 10 then Nat.digitChar n :: acc
    else decAux fuel (n / 10) (Nat.digitChar (n % 10) :: acc)

/-- Decimal string of `n` (the embedding of `format!("{}", n)`). -/
def decRepr (n : Nat) : String :=
  String.mk (decAux (n + 1) n [])

/-- `Compiler::gen_label`: the synthesized label is
`format!(".{}{}", current_name, label)` — a dot, the owning procedure's
name, then the counter — and the counter is bumped. -/
def genLabel (st : St) : String × St :=
  ("." ++ st.currentName ++ decRepr st.label, { st with label := st.label + 1 })

/-- Result of the external constant evaluator `eval` (`eval.rs`, a collaborator
outside the core): a final 64-bit value, or blockage on a named constant. -/
inductive EvalRes where
  | ok (bytes : Nat)
  | blocked (name : String)

/-- The external evaluator, abstracted as a function parameter: it receives the
lowered instruction sequence and the current string pool. -/
def EvalFn : Type := List Op → List String → EvalRes

/-- Abnormal outcomes of lowering: `panicUnreachable` models `unreachable!()`,
`panicTodo` models `todo!()`, and `outOfFuel` is the fuel bound of the
embedding (the Rust recursion is unbounded). -/
inductive CErr where
  | panicUnreachable
  | panicTodo
  | outOfFuel
deriving Repr, DecidableEq

/-- `IConst::from` the declared type and evaluator result, as written inline in
`Compiler::compile_const`: `Bool(bytes != 0)`, `U64(bytes)`,
`I64(bytes as i64)` (a bit-reinterpretation, so the same word), and
`Type::Ptr => todo!()`. -/
def tyReinterpret (ty : Ty) (bytes : Nat) : Except CErr IConst :=
  match ty with
  | .bool => .ok (.Bool (if bytes ≠ 0 then 1 else 0))
  | .u64 => .ok (.U64 bytes)
  | .i64 => .ok (.I64 bytes)
  | .ptr => .error .panicTodo

mutual

/-- `Compiler::compile_const`: fold one named constant.  A cached value is
returned as is; a pending body is lowered in an isolated sub-compiler sharing
the fold cache and string pool, evaluated, and on a blockage signal the
blocking constant is folded first and the body re-lowered and re-evaluated
exactly once; a second blockage is `unreachable!()`.  The result is memoized
under `name`. -/
def compileConst (ev : EvalFn) : Nat → St → String → Except CErr (IConst × St)
  | 0, _, _ => .error .outOfFuel
  | fuel + 1, st, name =>
    match lookupConst st.consts name with
    | some (.compiled i) => .ok (i, st)
    | none => .error .panicUnreachable
    | some (.notCompiled c) => do
      let com := withConstsAndStrings st.consts st.strings
      let com ← compileBody ev fuel com c.body
      let com := emit com .exit
      let st := { st with consts := com.consts, strings := com.strings }
      let ops := com.result
      match ev ops st.strings with
      | .ok bytes => do
        let v ← tyReinterpret c.ty bytes
        .ok (v, { st with consts := insertConst name (.compiled v) st.consts })
      | .blocked req => do
        let (_, st) ← compileConst ev fuel st req
        let com := withConstsAndStrings st.consts st.strings
        let com ← compileBody ev fuel com c.body
        let com := emit com .exit
        let ops := com.result
        let st := { st with consts := com.consts, strings := com.strings }
        match ev ops st.strings with
        | .ok bytes => do
          let v ← tyReinterpret c.ty bytes
          .ok (v, { st with consts := insertConst name (.compiled v) st.consts })
        | .blocked _ => .error .panicUnreachable

/-- `Compiler::compile_body`: walk the block in order.  String literals are
interned in the pool and pushed by index; a word naming a cached constant is
folded and pushed as an immediate, any other word becomes a call; intrinsics
map one-to-one onto instructions, except `CompStop`, which abandons the rest
of the current block; `if`/`while` recurse; `bind` is `todo!()`. -/
def compileBody (ev : EvalFn) : Nat → St → List AstKind → Except CErr St
  | 0, _, _ => .error .outOfFuel
  | _ + 1, st, [] => .ok st
  | fuel + 1, st, node :: rest =>
    match node with
    | .literal c =>
      (match c with
        | .Str s =>
          let i := st.strings.length
          let st := { st with strings := st.strings ++ [s] }
          compileBody ev fuel (emit st (.pushStr i)) rest
        | c => compileBody ev fuel (emit st (.push c)) rest)
    | .word w =>
      if containsConst st.consts w then do
        let (c, st) ← compileConst ev fuel st w
        compileBody ev fuel (emit st (.push c)) rest
      else
        compileBody ev fuel (emit st (.call w)) rest
    | .intrinsic i =>
      match i with
      | .drop => compileBody ev fuel (emit st .drop) rest
      | .dup => compileBody ev fuel (emit st .dup) rest
      | .swap => compileBody ev fuel (emit st .swap) rest
      | .over => compileBody ev fuel (emit st .over) rest
      | .readU8 => compileBody ev fuel (emit st .readU8) rest
      | .writeU8 => compileBody ev fuel (emit st .writeU8) rest
      | .ptrAdd => compileBody ev fuel (emit st .add) rest
      | .ptrSub => compileBody ev fuel (emit st .sub) rest
      | .add => compileBody ev fuel (emit st .add) rest
      | .sub => compileBody ev fuel (emit st .sub) rest
      | .divmod => compileBody ev fuel (emit st .divmod) rest
      | .mul => compileBody ev fuel (emit st .mul) rest
      | .eq => compileBody ev fuel (emit st .eq) rest
      | .ne => compileBody ev fuel (emit st .ne) rest
      | .lt => compileBody ev fuel (emit st .lt) rest
      | .le => compileBody ev fuel (emit st .le) rest
      | .gt => compileBody ev fuel (emit st .gt) rest
      | .ge => compileBody ev fuel (emit st .ge) rest
      | .dump => compileBody ev fuel (emit st .dump) rest
      | .print => compileBody ev fuel (emit st .print) rest
      | .putC => compileBody ev fuel (emit st .putC) rest
      | .compStop => .ok st
    | .iff truth lie => do
      let st ← compileCond ev fuel st truth lie
      compileBody ev fuel st rest
    | .whl cond body => do
      let st ← compileWhile ev fuel st cond body
      compileBody ev fuel st rest
    | .bindNode _ _ => .error .panicTodo

/-- `Compiler::compile_cond`: a fresh label for the else-branch, `jump-false`
to it, the truth block, then (when an else block exists) a fresh end label,
a jump to it, the else label, the else block and the end label. -/
def compileCond (ev : EvalFn) :
    Nat → St → List AstKind → Option (List AstKind) → Except CErr St
  | 0, _, _, _ => .error .outOfFuel
  | fuel + 1, st, truth, lie =>
    let (lieLabel, st) := genLabel st
    let st := emit st (.jumpF lieLabel)
    do
      let st ← compileBody ev fuel st truth
      match lie with
      | some lieBody =>
        let (endLabel, st) := genLabel st
        let st := emit st (.jump endLabel)
        let st := emit st (.label lieLabel)
        let st ← compileBody ev fuel st lieBody
        .ok (emit st (.label endLabel))
      | none => .ok (emit st (.label lieLabel))

/-- `Compiler::compile_while`: condition label, condition block, `jump-false`
to the end label, the body, a back jump, the end label. -/
def compileWhile (ev : EvalFn) :
    Nat → St → List AstKind → List AstKind → Except CErr St
  | 0, _, _, _ => .error .outOfFuel
  | fuel + 1, st, cond, body =>
    let (condLabel, st) := genLabel st
    let (endLabel, st) := genLabel st
    let st := emit st (.label condLabel)
    do
      let st ← compileBody ev fuel st cond
      let st := emit st (.jumpF endLabel)
      let st ← compileBody ev fuel st body
      let st := emit st (.jump condLabel)
      .ok (emit st (.label endLabel))

end

/-- `Compiler::compile_proc`: reset the label counter, remember the owning
name, emit the procedure entry, lower the body, emit `Return`. -/
def compileProc (ev : EvalFn) (fuel : Nat) (st : St) (name : String)
    (p : Proc) : Except CErr St :=
  let st := { st with label := 0, currentName := name }
  let st := emit st (.proc name)
  match compileBody ev fuel st p.body with
  | .error e => .error e
  | .ok st => .ok (emit st .ret)

/-- The `for (name, proc) in procs` loop of `Compiler::compile`. -/
def compileProcs (ev : EvalFn) (fuel : Nat) :
    St → List (String × Proc) → Except CErr St
  | st, [] => .ok st
  | st, (name, p) :: rest => do
    let st ← compileProc ev fuel st name p
    compileProcs ev fuel st rest

/-- One entry of the item mapping handed to `Compiler::compile`: name,
item, span, and the externally supplied reachability flag.  The Rust
`HashMap` is modelled as a list whose order is the map's iteration order
(which Rust's randomly seeded `HashMap` does not fix). -/
def Items : Type := List (String × TopLevel × Span × Bool)

/-- The `partition` predicate of `Compiler::compile`:
`matches!(it, TopLevel::Proc(_))`. -/
def isProcItem (x : String × TopLevel × Span × Bool) : Bool :=
  match x.2.1 with
  | .proc _ => true
  | .konst _ => false

/-- The proc-side `filter_map` of `Compiler::compile`: the proc half of the
`partition` (Rust's `partition` keeps iteration order, i.e. it is `filter`),
with reachable procedures kept in order.  (The `unreachable!()` arm for a
constant in the proc partition cannot fire and is modelled as skipping.) -/
def neededProcs (items : Items) : List (String × Proc) :=
  (items.filter isProcItem).filterMap fun x =>
    match x.2.1 with
    | .proc p => if x.2.2.2 then some (x.1, p) else none
    | .konst _ => none

/-- The const-side `filter_map ... collect::<HashMap<_,_>>` of
`Compiler::compile`: the const half of the `partition`; reachable constants
enter the fold cache as pending, unreachable ones are dropped.  (The
`unreachable!()` arm for a procedure in the const partition cannot fire and
is modelled as skipping.) -/
def neededConsts (items : Items) : List (String × ComConst) :=
  (items.filter fun x => !isProcItem x).filterMap fun x =>
    match x.2.1 with
    | .konst c => if x.2.2.2 then some (x.1, .notCompiled c) else none
    | .proc _ => none

/-- `Compiler::compile`: split the items, install the reachable constants as
the fold cache, emit `call main` and `exit`, then lower every reachable
procedure in iteration order; return the instruction sequence and the string
pool. -/
def compile (ev : EvalFn) (fuel : Nat) (st : St) (items : Items) :
    Except CErr (List Op × List String) :=
  let st := { st with consts := neededConsts items }
  let st := emit st (.call "main")
  let st := emit st .exit
  match compileProcs ev fuel st (neededProcs items) with
  | .error e => .error e
  | .ok st => .ok (st.result, st.strings)

/-- An evaluator that is never consulted in programs without constants. -/
def evNever : EvalFn := fun _ _ => .ok 0

/-- The label string synthesized for counter `k` inside the procedure
named `name` (the value `gen_label` returns before bumping the counter). -/
def lbl (name : String) (k : Nat) : String :=
  "." ++ name ++ decRepr k

theorem genLabel_eq (st : St) :
    genLabel st = (lbl st.currentName st.label, { st with label := st.label + 1 }) := rfl

/-- Mathematical form of the decimal digit list: `['0']` for zero, otherwise
the base-10 digits most significant first. -/
def decSpec (n : Nat) : List Char :=
  if n = 0 then ['0'] else ((Nat.digits 10 n).map Nat.digitChar).reverse

theorem decAux_eq_decSpec :
    ∀ (fuel n : Nat) (acc : List Char), n < 10 ^ (fuel + 1) →
      decAux (fuel + 1) n acc = decSpec n ++ acc := by
  intro fuel
  induction fuel with
  | zero =>
    intro n acc hn
    have hn' : n < 10 := by simpa using hn
    simp only [decAux, if_pos hn', decSpec]
    rcases Nat.eq_zero_or_pos n with h0 | hpos
    · subst h0; rfl
    · rw [if_neg (Nat.pos_iff_ne_zero.mp hpos),
        Nat.digits_of_lt 10 n (Nat.pos_iff_ne_zero.mp hpos) hn']
      rfl
  | succ fuel ih =>
    intro n acc hn
    by_cases hlt : n < 10
    · simp only [decAux, if_pos hlt, decSpec]
      rcases Nat.eq_zero_or_pos n with h0 | hpos
      · subst h0; rfl
      · rw [if_neg (Nat.pos_iff_ne_zero.mp hpos),
          Nat.digits_of_lt 10 n (Nat.pos_iff_ne_zero.mp hpos) hlt]
        rfl
    · push_neg at hlt
      have hne : n ≠ 0 := by omega
      have hdiv : n / 10 < 10 ^ (fuel + 1) := by
        rw [Nat.div_lt_iff_lt_mul (by norm_num)]
        calc n < 10 ^ (fuel + 1 + 1) := hn
          _ = 10 ^ (fuel + 1) * 10 := by ring
      have hstep : decAux (fuel + 1 + 1) n acc =
          decAux (fuel + 1) (n / 10) (Nat.digitChar (n % 10) :: acc) := by
        simp only [decAux, if_neg (by omega : ¬ n < 10)]
      rw [hstep, ih (n / 10) _ hdiv]
      have hdivne : n / 10 ≠ 0 := by
        have := Nat.div_pos hlt (by norm_num)
        omega
      simp only [decSpec, if_neg hne, if_neg hdivne,
        Nat.digits_def' (by norm_num : (1:Nat) < 10) (Nat.pos_of_ne_zero hne),
        List.map_cons, List.reverse_cons, List.append_assoc, List.cons_append,
        List.nil_append]

theorem digitChar_inj_of_lt :
    ∀ a, a < 10 → ∀ b, b < 10 → Nat.digitChar a = Nat.digitChar b → a = b := by
  decide

theorem map_digitChar_inj :
    ∀ l1 l2 : List Nat, (∀ x ∈ l1, x < 10) → (∀ x ∈ l2, x < 10) →
      l1.map Nat.digitChar = l2.map Nat.digitChar → l1 = l2 := by
  intro l1
  induction l1 with
  | nil => intro l2 _ _ h; cases l2 <;> simp_all
  | cons a l1 ih =>
    intro l2 h1 h2 h
    cases l2 with
    | nil => simp at h
    | cons b l2 =>
      simp only [List.map_cons, List.cons.injEq] at h
      have ha : a = b := digitChar_inj_of_lt a (h1 a (by simp)) b (h2 b (by simp)) h.1
      have : l1 = l2 := ih l2 (fun x hx => h1 x (by simp [hx]))
        (fun x hx => h2 x (by simp [hx])) h.2
      rw [ha, this]

theorem decSpec_inj : ∀ n m : Nat, decSpec n = decSpec m → n = m := by
  have key : ∀ m : Nat, m ≠ 0 → decSpec 0 ≠ decSpec m := by
    intro m hm h
    have h0 : decSpec 0 = ['0'] := by simp [decSpec]
    rw [h0] at h
    simp only [decSpec, if_neg hm] at h
    have hlen : (Nat.digits 10 m).length = 1 := by
      have := congrArg List.length h
      simp at this
      omega
    obtain ⟨d, hd⟩ : ∃ d, Nat.digits 10 m = [d] := by
      cases hdig : Nat.digits 10 m with
      | nil => rw [hdig] at hlen; simp at hlen
      | cons d tl =>
        rw [hdig] at hlen
        simp only [List.length_cons] at hlen
        have htl : tl = [] := List.length_eq_zero.mp (by omega)
        exact ⟨d, by rw [htl]⟩
    rw [hd] at h
    simp only [List.map_cons, List.map_nil, List.reverse_cons, List.reverse_nil,
      List.nil_append, List.cons.injEq] at h
    have hd10 : d < 10 :=
      Nat.digits_lt_base (by norm_num) (by rw [hd]; simp)
    have hd0 : (0:Nat) = d := digitChar_inj_of_lt 0 (by norm_num) d hd10 h.1
    have hm0 : m = 0 := by
      have hof := Nat.ofDigits_digits 10 m
      rw [hd, ← hd0] at hof
      simpa [Nat.ofDigits] using hof.symm
    exact hm hm0
  intro n m h
  rcases Nat.eq_zero_or_pos n with hn | hn
  · subst hn
    by_contra hne
    exact key m (by omega) h
  rcases Nat.eq_zero_or_pos m with hm | hm
  · subst hm
    by_contra hne
    exact key n (by omega) h.symm
  simp only [decSpec, if_neg (Nat.pos_iff_ne_zero.mp hn),
    if_neg (Nat.pos_iff_ne_zero.mp hm)] at h
  have h2 := List.reverse_injective h
  have h3 := map_digitChar_inj _ _
    (fun x hx => Nat.digits_lt_base (by norm_num) hx)
    (fun x hx => Nat.digits_lt_base (by norm_num) hx) h2
  exact Nat.digits.injective 10 h3

theorem decRepr_inj : ∀ n m : Nat, decRepr n = decRepr m → n = m := by
  intro n m h
  have hn : n < 10 ^ (n + 1) :=
    lt_of_lt_of_le (Nat.lt_pow_self (by norm_num) n)
      (Nat.pow_le_pow_right (by norm_num) (Nat.le_succ n))
  have hm : m < 10 ^ (m + 1) :=
    lt_of_lt_of_le (Nat.lt_pow_self (by norm_num) m)
      (Nat.pow_le_pow_right (by norm_num) (Nat.le_succ m))
  have hdata : decAux (n + 1) n [] = decAux (m + 1) m [] := by
    have := congrArg String.data h
    simpa [decRepr] using this
  rw [decAux_eq_decSpec n n [] hn, decAux_eq_decSpec m m [] hm] at hdata
  simp only [List.append_nil] at hdata
  exact decSpec_inj n m hdata

/-- Two labels with the same owning procedure name and different counters
never coincide. -/
theorem lbl_inj (name : String) :
    ∀ k1 k2, lbl name k1 = lbl name k2 → k1 = k2 := by
  intro k1 k2 h
  have hdata := congrArg String.data h
  simp only [lbl, String.data_append] at hdata
  have := List.append_cancel_left hdata
  exact decRepr_inj k1 k2 (String.ext this)

/-! ### Structural facts about lowering

`frame` collects, for every member of the mutual `compile_*` family, the
facts that successful lowering only appends to the instruction sequence,
never decreases the label counter, and never changes the current procedure
name — and that `compile_const` leaves sequence, counter and name entirely
untouched (it only mutates the fold cache and string pool). -/

theorem frame (ev : EvalFn) : ∀ fuel : Nat,
    (∀ st name v st', compileConst ev fuel st name = .ok (v, st') →
      st'.label = st.label ∧ st'.currentName = st.currentName ∧
      st'.result = st.result) ∧
    (∀ st body st', compileBody ev fuel st body = .ok st' →
      st'.currentName = st.currentName ∧ st.label ≤ st'.label ∧
      ∃ d, st'.result = st.result ++ d) ∧
    (∀ st truth lie st', compileCond ev fuel st truth lie = .ok st' →
      st'.currentName = st.currentName ∧ st.label + 1 ≤ st'.label ∧
      ∃ d, st'.result = st.result ++ d) ∧
    (∀ st cond body st', compileWhile ev fuel st cond body = .ok st' →
      st'.currentName = st.currentName ∧ st.label + 2 ≤ st'.label ∧
      ∃ d, st'.result = st.result ++ d) := by
  intro fuel
  induction fuel with
  | zero =>
    refine ⟨?_, ?_, ?_, ?_⟩ <;> intros <;> simp_all [compileConst,
      compileBody, compileCond, compileWhile]
  | succ fuel ih =>
    obtain ⟨ihConst, ihBody, ihCond, ihWhile⟩ := ih
    have hconst : ∀ st name v st', compileConst ev (fuel + 1) st name = .ok (v, st') →
        st'.label = st.label ∧ st'.currentName = st.currentName ∧
        st'.result = st.result := by
      intro st name v st' h
      simp only [compileConst, bind, Except.bind] at h
      split at h
      · obtain ⟨rfl, rfl⟩ := Prod.mk.inj (Except.ok.inj h)
        exact ⟨rfl, rfl, rfl⟩
      · exact absurd h (by simp)
      · split at h
        · exact absurd h (by simp)
        · rename_i com h1
          split at h
          · -- first evaluation succeeded
            split at h
            · exact absurd h (by simp)
            · obtain ⟨rfl, rfl⟩ := Prod.mk.inj (Except.ok.inj h)
              exact ⟨rfl, rfl, rfl⟩
          · -- first evaluation blocked
            split at h
            · exact absurd h (by simp)
            · rename_i p h2
              obtain ⟨v2, st2⟩ := p
              have hst2 := ihConst _ _ _ _ h2
              split at h
              · exact absurd h (by simp)
              · rename_i com2 h3
                split at h
                · split at h
                  · exact absurd h (by simp)
                  · obtain ⟨rfl, rfl⟩ := Prod.mk.inj (Except.ok.inj h)
                    simp only [St.label, St.currentName, St.result] at *
                    exact ⟨hst2.1, hst2.2.1, hst2.2.2⟩
                · exact absurd h (by simp)
    have hchain : ∀ (st st' st1 : St) (rest : List AstKind),
        st1.currentName = st.currentName → st.label ≤ st1.label →
        (∃ d0, st1.result = st.result ++ d0) →
        compileBody ev fuel st1 rest = .ok st' →
        st'.currentName = st.currentName ∧ st.label ≤ st'.label ∧
        ∃ d, st'.result = st.result ++ d := by
      intro st st' st1 rest hn hl hr hrec
      obtain ⟨d0, hr0⟩ := hr
      obtain ⟨hn', hl', d1, hr'⟩ := ihBody _ _ _ hrec
      exact ⟨hn'.trans hn, hl.trans hl', d0 ++ d1, by simp [hr', hr0]⟩
    have hemit : ∀ (st st' stb : St) (op : Op) (rest : List AstKind),
        stb.currentName = st.currentName → stb.label = st.label →
        stb.result = st.result →
        compileBody ev fuel (emit stb op) rest = .ok st' →
        st'.currentName = st.currentName ∧ st.label ≤ st'.label ∧
        ∃ d, st'.result = st.result ++ d := by
      intro st st' stb op rest hn hl hr hrec
      refine hchain st st' (emit stb op) rest ?_ ?_ ?_ hrec
      · simp [emit, hn]
      · simp [emit, hl]
      · exact ⟨[op], by simp [emit, hr]⟩
    have hbody : ∀ st body st', compileBody ev (fuel + 1) st body = .ok st' →
        st'.currentName = st.currentName ∧ st.label ≤ st'.label ∧
        ∃ d, st'.result = st.result ++ d := by
      intro st body st' h
      match body with
      | [] =>
        obtain rfl := Except.ok.inj (by simpa only [compileBody] using h)
        exact ⟨rfl, le_refl _, [], by simp⟩
      | node :: rest =>
        cases node with
        | literal c =>
          cases c with
          | Str s =>
            simp only [compileBody] at h
            exact hemit st st' { st with strings := st.strings ++ [s] } _ rest
              rfl rfl rfl h
          | Bool w =>
            simp only [compileBody] at h
            exact hemit st st' st _ rest rfl rfl rfl h
          | U64 w =>
            simp only [compileBody] at h
            exact hemit st st' st _ rest rfl rfl rfl h
          | I64 w =>
            simp only [compileBody] at h
            exact hemit st st' st _ rest rfl rfl rfl h
        | word w =>
          simp only [compileBody, bind, Except.bind] at h
          split at h
          · -- the word names a cached constant
            split at h
            · exact absurd h (by simp)
            · rename_i p h1
              obtain ⟨c, st1⟩ := p
              have hst1 := ihConst _ _ _ _ h1
              exact hemit st st' st1 _ rest hst1.2.1 hst1.1 hst1.2.2 h
          · exact hemit st st' st _ rest rfl rfl rfl h
        | intrinsic i =>
          cases i <;> simp only [compileBody] at h
          case compStop =>
            obtain rfl := Except.ok.inj h
            exact ⟨rfl, le_refl _, [], by simp⟩
          all_goals
            exact hemit st st' st _ rest rfl rfl rfl h
        | iff truth lie =>
          simp only [compileBody, bind, Except.bind] at h
          split at h
          · exact absurd h (by simp)
          · rename_i st1 h1
            have hst1 := ihCond _ _ _ _ h1
            exact hchain st st' _ rest hst1.1 (le_trans (Nat.le_succ _)
              hst1.2.1) hst1.2.2 h
        | whl cond body' =>
          simp only [compileBody, bind, Except.bind] at h
          split at h
          · exact absurd h (by simp)
          · rename_i st1 h1
            have hst1 := ihWhile _ _ _ _ h1
            exact hchain st st' _ rest hst1.1 (le_trans (by omega)
              hst1.2.1) hst1.2.2 h
        | bindNode bs b => exact absurd (by simpa only [compileBody] using h) (by simp)
    have hcond : ∀ st truth lie st', compileCond ev (fuel + 1) st truth lie = .ok st' →
        st'.currentName = st.currentName ∧ st.label + 1 ≤ st'.label ∧
        ∃ d, st'.result = st.result ++ d := by
      intro st truth lie st' h
      cases lie with
      | none =>
        simp only [compileCond, genLabel, bind, Except.bind] at h
        split at h
        · exact absurd h (by simp)
        · rename_i stT h1
          have hT := ihBody _ _ _ h1
          have hTn : stT.currentName = st.currentName := hT.1
          have hTl : st.label + 1 ≤ stT.label := hT.2.1
          have hTr : ∃ d, stT.result =
              (st.result ++ [Op.jumpF (lbl st.currentName st.label)]) ++ d :=
            hT.2.2
          obtain rfl := Except.ok.inj h
          refine ⟨hTn, hTl, ?_⟩
          obtain ⟨d, hd⟩ := hTr
          refine ⟨[Op.jumpF (lbl st.currentName st.label)] ++ d ++
            [Op.label (lbl st.currentName st.label)], ?_⟩
          show stT.result ++ [Op.label (lbl st.currentName st.label)] = _
          rw [hd]; simp
      | some lieBody =>
        simp only [compileCond, genLabel, bind, Except.bind] at h
        split at h
        · exact absurd h (by simp)
        · rename_i stT h1
          have hT := ihBody _ _ _ h1
          have hTn : stT.currentName = st.currentName := hT.1
          have hTl : st.label + 1 ≤ stT.label := hT.2.1
          have hTr : ∃ d, stT.result =
              (st.result ++ [Op.jumpF (lbl st.currentName st.label)]) ++ d :=
            hT.2.2
          split at h
          · exact absurd h (by simp)
          · rename_i stE h2
            have hE := ihBody _ _ _ h2
            have hEn : stE.currentName = stT.currentName := hE.1
            have hEl : stT.label + 1 ≤ stE.label := hE.2.1
            have hEr : ∃ d, stE.result =
                ((stT.result ++ [Op.jump (lbl stT.currentName stT.label)]) ++
                  [Op.label (lbl st.currentName st.label)]) ++ d :=
              hE.2.2
            obtain rfl := Except.ok.inj h
            refine ⟨hEn.trans hTn, by show st.label + 1 ≤ stE.label; omega, ?_⟩
            obtain ⟨d1, hd1⟩ := hTr
            obtain ⟨d2, hd2⟩ := hEr
            refine ⟨[Op.jumpF (lbl st.currentName st.label)] ++ d1 ++
              [Op.jump (lbl stT.currentName stT.label),
               Op.label (lbl st.currentName st.label)] ++ d2 ++
              [Op.label (lbl stT.currentName stT.label)], ?_⟩
            show stE.result ++ [Op.label (lbl stT.currentName stT.label)] = _
            rw [hd2, hd1]; simp
    have hwhile : ∀ st cond body st', compileWhile ev (fuel + 1) st cond body = .ok st' →
        st'.currentName = st.currentName ∧ st.label + 2 ≤ st'.label ∧
        ∃ d, st'.result = st.result ++ d := by
      intro st cond body st' h
      simp only [compileWhile, genLabel, bind, Except.bind] at h
      split at h
      · exact absurd h (by simp)
      · rename_i stC h1
        have hC := ihBody _ _ _ h1
        have hCn : stC.currentName = st.currentName := hC.1
        have hCl : st.label + 2 ≤ stC.label := hC.2.1
        have hCr : ∃ d, stC.result =
            (st.result ++ [Op.label (lbl st.currentName st.label)]) ++ d :=
          hC.2.2
        split at h
        · exact absurd h (by simp)
        · rename_i stB h2
          have hB := ihBody _ _ _ h2
          have hBn : stB.currentName = stC.currentName := hB.1
          have hBl : stC.label ≤ stB.label := hB.2.1
          have hBr : ∃ d, stB.result =
              (stC.result ++ [Op.jumpF (lbl st.currentName (st.label + 1))]) ++ d :=
            hB.2.2
          obtain rfl := Except.ok.inj h
          refine ⟨hBn.trans hCn, by show st.label + 2 ≤ stB.label; omega, ?_⟩
          obtain ⟨d1, hd1⟩ := hCr
          obtain ⟨d2, hd2⟩ := hBr
          refine ⟨[Op.label (lbl st.currentName st.label)] ++ d1 ++
            [Op.jumpF (lbl st.currentName (st.label + 1))] ++ d2 ++
            [Op.jump (lbl st.currentName st.label),
             Op.label (lbl st.currentName (st.label + 1))], ?_⟩
          show (stB.result ++ [Op.jump (lbl st.currentName st.label)]) ++
            [Op.label (lbl st.currentName (st.label + 1))] = _
          rw [hd2, hd1]; simp
    exact ⟨hconst, hbody, hcond, hwhile⟩

/-- Blocks free of control flow: every top-level node is a literal, word, or
intrinsic.  (Nodes of those kinds contain no sub-blocks, so nothing deeper
can hide an `if`/`while` either.) -/
def noCF (body : List AstKind) : Bool :=
  body.all fun n =>
    match n with
    | .literal _ => true
    | .word _ => true
    | .intrinsic _ => true
    | .iff _ _ => false
    | .whl _ _ => false
    | .bindNode _ _ => false

/-- Lowering a control-flow-free block never calls `gen_label`, so the label
counter is unchanged. -/
theorem noCF_label (ev : EvalFn) : ∀ fuel st body st',
    noCF body = true → compileBody ev fuel st body = .ok st' →
    st'.label = st.label := by
  intro fuel
  induction fuel with
  | zero => intro st body st' _ h; simp [compileBody] at h
  | succ fuel ih =>
    intro st body st' hcf h
    match body with
    | [] =>
      obtain rfl := Except.ok.inj (by simpa only [compileBody] using h)
      rfl
    | node :: rest =>
      have hcf' : noCF rest = true := by
        simp only [noCF, List.all_cons, Bool.and_eq_true] at hcf
        exact hcf.2
      have step : ∀ (stb : St) (op : Op), stb.label = st.label →
          compileBody ev fuel (emit stb op) rest = .ok st' →
          st'.label = st.label := by
        intro stb op hl hrec
        have h2 : st'.label = stb.label := ih (emit stb op) rest st' hcf' hrec
        exact h2.trans hl
      cases node with
      | literal c =>
        cases c with
        | Str s =>
          simp only [compileBody] at h
          exact step { st with strings := st.strings ++ [s] } _ rfl h
        | Bool w => simp only [compileBody] at h; exact step st _ rfl h
        | U64 w => simp only [compileBody] at h; exact step st _ rfl h
        | I64 w => simp only [compileBody] at h; exact step st _ rfl h
      | word w =>
        simp only [compileBody, bind, Except.bind] at h
        split at h
        · split at h
          · exact absurd h (by simp)
          · rename_i p h1
            obtain ⟨c, st1⟩ := p
            have hst1 : st1.label = st.label := ((frame ev fuel).1 _ _ _ _ h1).1
            exact step st1 _ hst1 h
        · exact step st _ rfl h
      | intrinsic i =>
        cases i <;> simp only [compileBody] at h
        case compStop =>
          obtain rfl := Except.ok.inj h
          rfl
        all_goals exact step st _ rfl h
      | iff t l => simp [noCF] at hcf
      | whl a b => simp [noCF] at hcf
      | bindNode a b => simp [noCF] at hcf

/-- The AST of `proc main do 1 2 + print end`. -/
def mainAddPrintProc : Proc :=
  { signature := { ins := [], outs := [] },
    body := [.literal (.U64 1), .literal (.U64 2), .intrinsic .add,
             .intrinsic .print] }

/-- Every successful `compile_proc` wraps its body's instructions between its
`Proc` entry marker and a `Return`, only appending to the sequence. -/
theorem compileProc_result (ev : EvalFn) (fuel : Nat) (st : St) (name : String)
    (p : Proc) (st' : St) (h : compileProc ev fuel st name p = .ok st') :
    ∃ d, st'.result = st.result ++ d := by
  simp only [compileProc] at h
  split at h
  · exact absurd h (by simp)
  · rename_i stB hB
    have hfb := (frame ev fuel).2.1 _ _ _ hB
    have hr : ∃ d, stB.result = (st.result ++ [Op.proc name]) ++ d := hfb.2.2
    obtain ⟨d, hd⟩ := hr
    obtain rfl := Except.ok.inj h
    refine ⟨[Op.proc name] ++ d ++ [Op.ret], ?_⟩
    show stB.result ++ [Op.ret] = _
    rw [hd]; simp

/-- The procedure loop of `compile` only appends to the sequence. -/
theorem compileProcs_result (ev : EvalFn) (fuel : Nat) :
    ∀ (procs : List (String × Proc)) (st st' : St),
      compileProcs ev fuel st procs = .ok st' →
      ∃ d, st'.result = st.result ++ d := by
  intro procs
  induction procs with
  | nil =>
    intro st st' h
    obtain rfl := Except.ok.inj (by simpa only [compileProcs] using h)
    exact ⟨[], by simp⟩
  | cons p l ih =>
    intro st st' h
    obtain ⟨name, pr⟩ := p
    simp only [compileProcs, bind, Except.bind] at h
    split at h
    · exact absurd h (by simp)
    · rename_i st1 h1
      obtain ⟨d1, hd1⟩ := compileProc_result ev fuel st name pr st1 h1
      obtain ⟨d2, hd2⟩ := ih st1 st' h
      exact ⟨d1 ++ d2, by rw [hd2, hd1]; simp⟩

/-- Dropping the items whose reachability flag is `false` does not change the
reachable-procedure worklist. -/
theorem neededProcs_filter : ∀ items : Items,
    neededProcs (items.filter fun x => x.2.2.2) = neededProcs items := by
  intro items
  induction items with
  | nil => rfl
  | cons x l ih =>
    obtain ⟨n, it, sp, b⟩ := x
    cases it <;> cases b <;>
      simp_all [neededProcs, isProcItem, List.filter_cons, List.filterMap_cons]

/-- Dropping the items whose reachability flag is `false` does not change the
initial fold cache. -/
theorem neededConsts_filter : ∀ items : Items,
    neededConsts (items.filter fun x => x.2.2.2) = neededConsts items := by
  intro items
  induction items with
  | nil => rfl
  | cons x l ih =>
    obtain ⟨n, it, sp, b⟩ := x
    cases it <;> cases b <;>
      simp_all [neededConsts, isProcItem, List.filter_cons, List.filterMap_cons]

/-- C1.  `Compiler::compile` behaves identically on the item mapping and on
the mapping with every unreachable item removed — an unreachable procedure
contributes zero instructions and an unreachable constant never enters the
fold cache — and, starting from a fresh compiler, the output begins with
`Call "main"` followed by `Exit`, with all procedure lowerings after them. -/
theorem compile_reachability_and_prelude (ev : EvalFn) (fuel : Nat) (st : St)
    (items : Items) :
    compile ev fuel st (items.filter fun x => x.2.2.2) = compile ev fuel st items ∧
    (∀ ops strs, st.result = [] → compile ev fuel st items = .ok (ops, strs) →
      ∃ rest, ops = .call "main" :: .exit :: rest) := by
  constructor
  · simp only [compile, neededProcs_filter, neededConsts_filter]
  · intro ops strs hres h
    simp only [compile] at h
    split at h
    · exact absurd h (by simp)
    · rename_i stF hF
      obtain ⟨h1, h2⟩ := Prod.mk.inj (Except.ok.inj h)
      obtain ⟨d, hd⟩ := compileProcs_result ev fuel _ _ _ hF
      refine ⟨d, ?_⟩
      have hd' : stF.result =
          ((st.result ++ [Op.call "main"]) ++ [Op.exit]) ++ d := hd
      rw [hres] at hd'
      rw [← h1, hd']
      simp

/-- C1 witness: a two-item mapping with one unreachable procedure and one
unreachable constant compiles as if they were absent, and the output starts
with `call main; exit`. -/
theorem compile_reachability_and_prelude_witness :
    ([(("main" : String), (TopLevel.proc mainAddPrintProc,
        (⟨"t", 0, 0⟩ : Span), true)),
      ("dead", (TopLevel.proc { signature := ⟨[], []⟩, body := [] },
        (⟨"t", 0, 0⟩ : Span), false)),
      ("deadc", (TopLevel.konst { body := [.literal (.U64 7)], ty := .u64 },
        (⟨"t", 0, 0⟩ : Span), false))].filter fun x => x.2.2.2) =
      [(("main" : String), (TopLevel.proc mainAddPrintProc,
        (⟨"t", 0, 0⟩ : Span), true))] ∧
    St.new.result = [] ∧
    (∃ rest, [Op.call "main", Op.exit, Op.proc "main", Op.push (.U64 1),
      Op.push (.U64 2), Op.add, Op.print, Op.ret] =
      .call "main" :: .exit :: rest) := by
  refine ⟨rfl, rfl, ?_⟩
  exact (compile_reachability_and_prelude evNever 32 St.new
    [("main", .proc mainAddPrintProc, ⟨"t", 0, 0⟩, true),
     ("dead", .proc { signature := ⟨[], []⟩, body := [] }, ⟨"t", 0, 0⟩, false),
     ("deadc", .konst { body := [.literal (.U64 7)], ty := .u64 },
       ⟨"t", 0, 0⟩, false)]).2
    [Op.call "main", Op.exit, Op.proc "main", Op.push (.U64 1),
      Op.push (.U64 2), Op.add, Op.print, Op.ret] [] rfl rfl

/-- C2.  Compiling the single-item program `proc main do 1 2 + print end`
(marked reachable) yields exactly `call main; exit; proc main; push U64 1;
push U64 2; add; print; return`: the program-entry call and exit precede the
procedure body in emission order.  The external evaluator is irrelevant
because the program has no constants. -/
theorem compile_main_add_print (ev : EvalFn) :
    compile ev 32 St.new
      [("main", .proc mainAddPrintProc, ⟨"input", 0, 33⟩, true)] =
    .ok ([.call "main", .exit, .proc "main", .push (.U64 1), .push (.U64 2),
          .add, .print, .ret], []) := rfl

/-- C3.  Lowering `if T else E end` emits `jump-false L0`, the lowering of
`T`, `jump L1`, `label L0`, the lowering of `E`, `label L1`, where `L0` is
fresh (counter `st.label`) and `L1` is fresh (a strictly later counter `m`,
so `L1 ≠ L0`); when `T` and `E` contain no nested control flow, exactly two
labels are synthesized: `m = st.label + 1` and the counter ends at
`st.label + 2`. -/
theorem ifElse_lowering_shape (ev : EvalFn) (fuel : Nat) (st : St)
    (truth lieBody : List AstKind) (st' : St)
    (h : compileCond ev (fuel + 1) st truth (some lieBody) = .ok st') :
    ∃ dT dE m,
      st.label < m ∧
      lbl st.currentName m ≠ lbl st.currentName st.label ∧
      st'.result = st.result
        ++ [Op.jumpF (lbl st.currentName st.label)]
        ++ dT
        ++ [Op.jump (lbl st.currentName m), Op.label (lbl st.currentName st.label)]
        ++ dE
        ++ [Op.label (lbl st.currentName m)] ∧
      (noCF truth = true → noCF lieBody = true →
        m = st.label + 1 ∧ st'.label = st.label + 2) := by
  simp only [compileCond, genLabel, bind, Except.bind] at h
  split at h
  · exact absurd h (by simp)
  · rename_i stT h1
    have hT := (frame ev fuel).2.1 _ _ _ h1
    have hTn : stT.currentName = st.currentName := hT.1
    have hTl : st.label + 1 ≤ stT.label := hT.2.1
    have hTr : ∃ d, stT.result =
        (st.result ++ [Op.jumpF (lbl st.currentName st.label)]) ++ d := hT.2.2
    split at h
    · exact absurd h (by simp)
    · rename_i stE h2
      have hE := (frame ev fuel).2.1 _ _ _ h2
      have hEr : ∃ d, stE.result =
          ((stT.result ++ [Op.jump (lbl stT.currentName stT.label)]) ++
            [Op.label (lbl st.currentName st.label)]) ++ d := hE.2.2
      obtain rfl := Except.ok.inj h
      obtain ⟨dT, hd1⟩ := hTr
      obtain ⟨dE, hd2⟩ := hEr
      refine ⟨dT, dE, stT.label, by omega, ?_, ?_, ?_⟩
      · intro heq
        have := lbl_inj st.currentName _ _ heq
        omega
      · show stE.result ++ [Op.label (lbl stT.currentName stT.label)] = _
        rw [hd2, hd1, hTn]
        simp
      · intro hcfT hcfE
        have h1l : stT.label = st.label + 1 := noCF_label ev fuel _ _ _ hcfT h1
        have h2l : stE.label = stT.label + 1 := noCF_label ev fuel _ _ _ hcfE h2
        refine ⟨by omega, ?_⟩
        show stE.label = st.label + 2
        omega

/-! ### Label bookkeeping (claim C4) -/

/-- The label names declared (as `Label` instructions) in an instruction
sequence, in order. -/
def labelNames (d : List Op) : List String :=
  d.filterMap fun op =>
    match op with
    | .label s => some s
    | _ => none

/-- The labels declared in a delta are exactly `lbl name k` for a duplicate
free set of counters drawn from `[lo, hi)`. -/
def labelsOk (name : String) (lo hi : Nat) (d : List Op) : Prop :=
  ∃ ks : List Nat, ks.Nodup ∧ (∀ k ∈ ks, lo ≤ k ∧ k < hi) ∧
    labelNames d = ks.map (lbl name)

theorem labelNames_append (a b : List Op) :
    labelNames (a ++ b) = labelNames a ++ labelNames b := by
  simp [labelNames, List.filterMap_append]

theorem labelsOk_of_no_labels {name : String} {lo hi : Nat} {d : List Op}
    (h : labelNames d = []) : labelsOk name lo hi d :=
  ⟨[], by simp, by simp, by simpa using h⟩

theorem labelsOk_mono {name : String} {lo hi lo' hi' : Nat} {d : List Op}
    (h : labelsOk name lo hi d) (hlo : lo' ≤ lo) (hhi : hi ≤ hi') :
    labelsOk name lo' hi' d := by
  obtain ⟨ks, hnd, hb, heq⟩ := h
  exact ⟨ks, hnd, fun k hk => ⟨le_trans hlo (hb k hk).1,
    lt_of_lt_of_le (hb k hk).2 hhi⟩, heq⟩

/-- `lbl name` is injective in the counter. -/
theorem lbl_injective (name : String) : Function.Injective (lbl name) :=
  fun a b h => lbl_inj name a b h

theorem labelsOk_append {name : String} {lo mid hi : Nat} {d1 d2 : List Op}
    (h1 : labelsOk name lo mid d1) (h2 : labelsOk name mid hi d2)
    (hlm : lo ≤ mid) (hmh : mid ≤ hi) : labelsOk name lo hi (d1 ++ d2) := by
  obtain ⟨ks1, hn1, hb1, he1⟩ := h1
  obtain ⟨ks2, hn2, hb2, he2⟩ := h2
  refine ⟨ks1 ++ ks2, ?_, ?_, ?_⟩
  · refine List.Nodup.append hn1 hn2 ?_
    intro k hk1 hk2
    have := hb1 k hk1
    have := hb2 k hk2
    omega
  · intro k hk
    rcases List.mem_append.mp hk with hk | hk
    · have := hb1 k hk; omega
    · have := hb2 k hk; omega
  · rw [labelNames_append, he1, he2, List.map_append]

/-- For every member of the lowering family, the appended instruction delta
declares labels `lbl currentName k` for pairwise distinct counters `k` lying
in `[st.label, st'.label)`. -/
theorem labelsFacts (ev : EvalFn) : ∀ fuel : Nat,
    (∀ st body st', compileBody ev fuel st body = .ok st' →
      ∃ d, st'.result = st.result ++ d ∧
        labelsOk st.currentName st.label st'.label d) ∧
    (∀ st truth lie st', compileCond ev fuel st truth lie = .ok st' →
      ∃ d, st'.result = st.result ++ d ∧
        labelsOk st.currentName st.label st'.label d) ∧
    (∀ st cond body st', compileWhile ev fuel st cond body = .ok st' →
      ∃ d, st'.result = st.result ++ d ∧
        labelsOk st.currentName st.label st'.label d) := by
  intro fuel
  induction fuel with
  | zero =>
    refine ⟨?_, ?_, ?_⟩ <;> intros <;> simp_all [compileBody,
      compileCond, compileWhile]
  | succ fuel ih =>
    obtain ⟨ihBody, ihCond, ihWhile⟩ := ih
    have hbody : ∀ st body st', compileBody ev (fuel + 1) st body = .ok st' →
        ∃ d, st'.result = st.result ++ d ∧
          labelsOk st.currentName st.label st'.label d := by
      intro st body st' h
      match body with
      | [] =>
        obtain rfl := Except.ok.inj (by simpa only [compileBody] using h)
        exact ⟨[], by simp, labelsOk_of_no_labels rfl⟩
      | node :: rest =>
        -- a non-label instruction followed by the rest of the block
        have hemit : ∀ (stb : St) (op : Op),
            stb.currentName = st.currentName → stb.label = st.label →
            stb.result = st.result → labelNames [op] = [] →
            compileBody ev fuel (emit stb op) rest = .ok st' →
            ∃ d, st'.result = st.result ++ d ∧
              labelsOk st.currentName st.label st'.label d := by
          intro stb op hn hl hr hnl hrec
          obtain ⟨d2, hd2, hok2⟩ := ihBody _ _ _ hrec
          have hok2a : labelsOk stb.currentName stb.label st'.label d2 := hok2
          rw [hn, hl] at hok2a
          have hd2' : st'.result = st.result ++ ([op] ++ d2) := by
            rw [hd2]
            show (stb.result ++ [op]) ++ d2 = _
            rw [hr]; simp
          refine ⟨[op] ++ d2, hd2', ?_⟩
          obtain ⟨ks, hnd, hb, heq⟩ := hok2a
          exact ⟨ks, hnd, hb, by rw [labelNames_append, hnl, heq]; simp⟩
        cases node with
        | literal c =>
          cases c with
          | Str s =>
            simp only [compileBody] at h
            exact hemit { st with strings := st.strings ++ [s] } _ rfl rfl rfl (by rfl) h
          | Bool w => simp only [compileBody] at h; exact hemit st _ rfl rfl rfl (by rfl) h
          | U64 w => simp only [compileBody] at h; exact hemit st _ rfl rfl rfl (by rfl) h
          | I64 w => simp only [compileBody] at h; exact hemit st _ rfl rfl rfl (by rfl) h
        | word w =>
          simp only [compileBody, bind, Except.bind] at h
          split at h
          · split at h
            · exact absurd h (by simp)
            · rename_i p h1
              obtain ⟨c, st1⟩ := p
              have hst1 := (frame ev fuel).1 _ _ _ _ h1
              exact hemit st1 _ hst1.2.1 hst1.1 hst1.2.2 (by rfl) h
          · exact hemit st _ rfl rfl rfl (by rfl) h
        | intrinsic i =>
          cases i <;> simp only [compileBody] at h
          case compStop =>
            obtain rfl := Except.ok.inj h
            exact ⟨[], by simp, labelsOk_of_no_labels rfl⟩
          all_goals exact hemit st _ rfl rfl rfl (by rfl) h
        | iff truth lie =>
          simp only [compileBody, bind, Except.bind] at h
          split at h
          · exact absurd h (by simp)
          · rename_i st1 h1
            obtain ⟨d1, hd1, hok1⟩ := ihCond _ _ _ _ h1
            obtain ⟨d2, hd2, hok2⟩ := ihBody _ _ _ h
            have hfr1 := (frame ev fuel).2.2.1 _ _ _ _ h1
            have hfr2 := (frame ev fuel).2.1 _ _ _ h
            have hl1 : st.label + 1 ≤ st1.label := hfr1.2.1
            have hl2 : st1.label ≤ st'.label := hfr2.2.1
            have hok2' : labelsOk st.currentName st1.label st'.label d2 := by
              rw [← hfr1.1]; exact hok2
            refine ⟨d1 ++ d2, by rw [hd2, hd1]; simp, ?_⟩
            exact labelsOk_append hok1 hok2' (by omega) hl2
        | whl cond body' =>
          simp only [compileBody, bind, Except.bind] at h
          split at h
          · exact absurd h (by simp)
          · rename_i st1 h1
            obtain ⟨d1, hd1, hok1⟩ := ihWhile _ _ _ _ h1
            obtain ⟨d2, hd2, hok2⟩ := ihBody _ _ _ h
            have hfr1 := (frame ev fuel).2.2.2 _ _ _ _ h1
            have hfr2 := (frame ev fuel).2.1 _ _ _ h
            have hl1 : st.label + 2 ≤ st1.label := hfr1.2.1
            have hl2 : st1.label ≤ st'.label := hfr2.2.1
            have hok2' : labelsOk st.currentName st1.label st'.label d2 := by
              rw [← hfr1.1]; exact hok2
            refine ⟨d1 ++ d2, by rw [hd2, hd1]; simp, ?_⟩
            exact labelsOk_append hok1 hok2' (by omega) hl2
        | bindNode bs b =>
          exact absurd (by simpa only [compileBody] using h) (by simp)
    have hcond : ∀ st truth lie st', compileCond ev (fuel + 1) st truth lie = .ok st' →
        ∃ d, st'.result = st.result ++ d ∧
          labelsOk st.currentName st.label st'.label d := by
      intro st truth lie st' h
      cases lie with
      | none =>
        simp only [compileCond, genLabel, bind, Except.bind] at h
        split at h
        · exact absurd h (by simp)
        · rename_i stT h1
          have hfT := (frame ev fuel).2.1 _ _ _ h1
          have hTn : stT.currentName = st.currentName := hfT.1
          have hTl : st.label + 1 ≤ stT.label := hfT.2.1
          obtain ⟨dT, hdT, hokT⟩ := ihBody _ _ _ h1
          have hdT' : stT.result =
              (st.result ++ [Op.jumpF (lbl st.currentName st.label)]) ++ dT := hdT
          have hokT' : labelsOk st.currentName (st.label + 1) stT.label dT := hokT
          obtain rfl := Except.ok.inj h
          refine ⟨[Op.jumpF (lbl st.currentName st.label)] ++ dT ++
            [Op.label (lbl st.currentName st.label)], ?_, ?_⟩
          · show stT.result ++ [Op.label (lbl st.currentName st.label)] = _
            rw [hdT']; simp
          · obtain ⟨ksT, hnd, hb, heq⟩ := hokT'
            refine ⟨ksT ++ [st.label], ?_, ?_, ?_⟩
            · refine List.Nodup.append hnd (List.nodup_singleton _) ?_
              intro k hk1 hk2
              simp only [List.mem_singleton] at hk2
              have := hb k hk1
              omega
            · intro k hk
              rcases List.mem_append.mp hk with hk | hk
              · have := hb k hk
                constructor
                · omega
                · show k < stT.label
                  omega
              · simp only [List.mem_singleton] at hk
                subst hk
                exact ⟨le_refl _, by show st.label < stT.label; omega⟩
            · rw [labelNames_append, labelNames_append, heq]
              simp [labelNames]
      | some lieBody =>
        simp only [compileCond, genLabel, bind, Except.bind] at h
        split at h
        · exact absurd h (by simp)
        · rename_i stT h1
          have hfT := (frame ev fuel).2.1 _ _ _ h1
          have hTn : stT.currentName = st.currentName := hfT.1
          have hTl : st.label + 1 ≤ stT.label := hfT.2.1
          obtain ⟨dT, hdT, hokT⟩ := ihBody _ _ _ h1
          have hdT' : stT.result =
              (st.result ++ [Op.jumpF (lbl st.currentName st.label)]) ++ dT := hdT
          have hokT' : labelsOk st.currentName (st.label + 1) stT.label dT := hokT
          split at h
          · exact absurd h (by simp)
          · rename_i stE h2
            have hfE := (frame ev fuel).2.1 _ _ _ h2
            have hEl : stT.label + 1 ≤ stE.label := hfE.2.1
            obtain ⟨dE, hdE, hokE⟩ := ihBody _ _ _ h2
            have hdE' : stE.result =
                ((stT.result ++ [Op.jump (lbl stT.currentName stT.label)]) ++
                  [Op.label (lbl st.currentName st.label)]) ++ dE := hdE
            have hokE0 : labelsOk stT.currentName (stT.label + 1) stE.label dE := hokE
            have hokE' : labelsOk st.currentName (stT.label + 1) stE.label dE := by
              rw [← hTn]; exact hokE0
            obtain rfl := Except.ok.inj h
            refine ⟨[Op.jumpF (lbl st.currentName st.label)] ++ dT ++
              [Op.jump (lbl stT.currentName stT.label),
               Op.label (lbl st.currentName st.label)] ++ dE ++
              [Op.label (lbl stT.currentName stT.label)], ?_, ?_⟩
            · show stE.result ++ [Op.label (lbl stT.currentName stT.label)] = _
              rw [hdE', hdT']; simp
            · obtain ⟨ksT, hndT, hbT, heqT⟩ := hokT'
              obtain ⟨ksE, hndE, hbE, heqE⟩ := hokE'
              refine ⟨ksT ++ st.label :: (ksE ++ [stT.label]), ?_, ?_, ?_⟩
              · refine List.Nodup.append hndT ?_ ?_
                · refine List.nodup_cons.mpr ⟨?_, ?_⟩
                  · intro hmem
                    rcases List.mem_append.mp hmem with hk | hk
                    · have := hbE _ hk; omega
                    · simp only [List.mem_singleton] at hk; omega
                  · refine List.Nodup.append hndE (List.nodup_singleton _) ?_
                    intro k hk1 hk2
                    simp only [List.mem_singleton] at hk2
                    have := hbE k hk1
                    omega
                · intro k hk1 hk2
                  have hkT := hbT k hk1
                  rcases List.mem_cons.mp hk2 with hk | hk
                  · omega
                  · rcases List.mem_append.mp hk with hk | hk
                    · have := hbE k hk; omega
                    · simp only [List.mem_singleton] at hk; omega
              · intro k hk
                have hgoal : st.label ≤ k ∧ k < stE.label →
                    st.label ≤ k ∧ k < (emit stE
                      (Op.label (lbl stT.currentName stT.label))).label :=
                  fun hx => hx
                rcases List.mem_append.mp hk with hk | hk
                · have := hbT k hk
                  exact hgoal ⟨by omega, by omega⟩
                · rcases List.mem_cons.mp hk with hk | hk
                  · subst hk
                    exact hgoal ⟨le_refl _, by omega⟩
                  · rcases List.mem_append.mp hk with hk | hk
                    · have := hbE k hk
                      exact hgoal ⟨by omega, by omega⟩
                    · simp only [List.mem_singleton] at hk
                      subst hk
                      exact hgoal ⟨by omega, by omega⟩
              · rw [labelNames_append, labelNames_append, labelNames_append,
                  labelNames_append, heqT, heqE]
                simp [labelNames, hTn]
    have hwhile : ∀ st cond body st', compileWhile ev (fuel + 1) st cond body = .ok st' →
        ∃ d, st'.result = st.result ++ d ∧
          labelsOk st.currentName st.label st'.label d := by
      intro st cond body st' h
      simp only [compileWhile, genLabel, bind, Except.bind] at h
      split at h
      · exact absurd h (by simp)
      · rename_i stC h1
        have hfC := (frame ev fuel).2.1 _ _ _ h1
        have hCn : stC.currentName = st.currentName := hfC.1
        have hCl : st.label + 2 ≤ stC.label := hfC.2.1
        obtain ⟨dC, hdC, hokC⟩ := ihBody _ _ _ h1
        have hdC' : stC.result =
            (st.result ++ [Op.label (lbl st.currentName st.label)]) ++ dC := hdC
        have hokC' : labelsOk st.currentName (st.label + 2) stC.label dC := hokC
        split at h
        · exact absurd h (by simp)
        · rename_i stB h2
          have hfB := (frame ev fuel).2.1 _ _ _ h2
          have hBn : stB.currentName = stC.currentName := hfB.1
          have hBl : stC.label ≤ stB.label := hfB.2.1
          obtain ⟨dB, hdB, hokB⟩ := ihBody _ _ _ h2
          have hdB' : stB.result =
              (stC.result ++ [Op.jumpF (lbl st.currentName (st.label + 1))]) ++ dB :=
            hdB
          have hokB0 : labelsOk stC.currentName stC.label stB.label dB := hokB
          have hokB' : labelsOk st.currentName stC.label stB.label dB := by
            rw [← hCn]; exact hokB0
          obtain rfl := Except.ok.inj h
          refine ⟨[Op.label (lbl st.currentName st.label)] ++ dC ++
            [Op.jumpF (lbl st.currentName (st.label + 1))] ++ dB ++
            [Op.jump (lbl st.currentName st.label),
             Op.label (lbl st.currentName (st.label + 1))], ?_, ?_⟩
          · show (stB.result ++ [Op.jump (lbl st.currentName st.label)]) ++
              [Op.label (lbl st.currentName (st.label + 1))] = _
            rw [hdB', hdC']; simp
          · obtain ⟨ksC, hndC, hbC, heqC⟩ := hokC'
            obtain ⟨ksB, hndB, hbB, heqB⟩ := hokB'
            refine ⟨st.label :: (ksC ++ (ksB ++ [st.label + 1])), ?_, ?_, ?_⟩
            · refine List.nodup_cons.mpr ⟨?_, ?_⟩
              · intro hmem
                rcases List.mem_append.mp hmem with hk | hk
                · have := hbC _ hk; omega
                · rcases List.mem_append.mp hk with hk | hk
                  · have := hbB _ hk; omega
                  · simp only [List.mem_singleton] at hk; omega
              · refine List.Nodup.append hndC ?_ ?_
                · refine List.Nodup.append hndB (List.nodup_singleton _) ?_
                  intro k hk1 hk2
                  simp only [List.mem_singleton] at hk2
                  have := hbB k hk1
                  omega
                · intro k hk1 hk2
                  have hkC := hbC k hk1
                  rcases List.mem_append.mp hk2 with hk | hk
                  · have := hbB k hk; omega
                  · simp only [List.mem_singleton] at hk; omega
            · intro k hk
              have hgoal : st.label ≤ k ∧ k < stB.label →
                  st.label ≤ k ∧ k < (emit (emit stB
                    (Op.jump (lbl st.currentName st.label)))
                    (Op.label (lbl st.currentName (st.label + 1)))).label :=
                fun hx => hx
              rcases List.mem_cons.mp hk with hk | hk
              · subst hk
                exact hgoal ⟨le_refl _, by omega⟩
              · rcases List.mem_append.mp hk with hk | hk
                · have := hbC k hk
                  exact hgoal ⟨by omega, by omega⟩
                · rcases List.mem_append.mp hk with hk | hk
                  · have := hbB k hk
                    exact hgoal ⟨by omega, by omega⟩
                  · simp only [List.mem_singleton] at hk
                    subst hk
                    exact hgoal ⟨by omega, by omega⟩
            · rw [labelNames_append, labelNames_append, labelNames_append,
                labelNames_append, heqC, heqB]
              simp [labelNames]
    exact ⟨hbody, hcond, hwhile⟩

/-- C4 (amended).  Within one procedure, every synthesized label name is
`"." ++ name ++ counter` with pairwise distinct counters bounded by the final
counter value, so label names inside one procedure never collide.  (The
claim's unit-wide uniqueness fails: see the counterexample, where `.a10`
is synthesized by both `a` and `a1`.) -/
theorem proc_labels_within_distinct (ev : EvalFn) (fuel : Nat) (st : St)
    (name : String) (p : Proc) (st' : St)
    (h : compileProc ev fuel st name p = .ok st') :
    ∃ d, st'.result = st.result ++ [Op.proc name] ++ d ++ [Op.ret] ∧
      (labelNames d).Nodup ∧
      ∀ s ∈ labelNames d, ∃ k, k < st'.label ∧ s = lbl name k := by
  simp only [compileProc] at h
  split at h
  · exact absurd h (by simp)
  · rename_i stB hB
    obtain ⟨d, hd, hok⟩ := (labelsFacts ev fuel).1 _ _ _ hB
    have hd' : stB.result = (st.result ++ [Op.proc name]) ++ d := hd
    have hok' : labelsOk name 0 stB.label d := hok
    obtain rfl := Except.ok.inj h
    obtain ⟨ks, hnd, hb, heq⟩ := hok'
    refine ⟨d, ?_, ?_, ?_⟩
    · show stB.result ++ [Op.ret] = _
      rw [hd']
    · rw [heq]
      exact List.Nodup.map (lbl_injective name) hnd
    · intro s hs
      rw [heq] at hs
      obtain ⟨k, hk, rfl⟩ := List.mem_map.mp hs
      exact ⟨k, by show k < stB.label; exact (hb k hk).2, rfl⟩

/-- The lowering state after the C4 witness procedure. -/
def c4St' : St :=
  { label := 2, currentName := "main",
    result := [.proc "main", .jumpF ".main0", .jump ".main1",
               .label ".main0", .label ".main1", .ret],
    consts := [], strings := [] }

/-- C4 witness: a procedure with one `if … else … end` synthesizes the two
distinct labels `.main0` and `.main1`. -/
theorem proc_labels_within_distinct_witness :
    compileProc evNever 9 St.new "main"
      { signature := ⟨[], []⟩, body := [.iff [] (some [])] } = .ok c4St' ∧
    (∃ d, c4St'.result = St.new.result ++ [Op.proc "main"] ++ d ++ [Op.ret] ∧
      (labelNames d).Nodup ∧
      ∀ s ∈ labelNames d, ∃ k, k < c4St'.label ∧ s = lbl "main" k) :=
  ⟨rfl, proc_labels_within_distinct evNever 9 St.new "main"
    { signature := ⟨[], []⟩, body := [.iff [] (some [])] } c4St' rfl⟩

/-- First component of a compilation result (empty on failure). -/
def resultOps (r : Except CErr (List Op × List String)) : List Op :=
  match r with
  | .ok (ops, _) => ops
  | .error _ => []

/-- One step of `compile_body` on a leading conditional whose lowering is
already known: the loop continues on the rest of the block. -/
theorem compileBody_iff_step (ev : EvalFn) (fuel : Nat) (st : St)
    (t : List AstKind) (l : Option (List AstKind)) (rest : List AstKind)
    (st1 : St) (h1 : compileCond ev fuel st t l = .ok st1) :
    compileBody ev (fuel + 1) st (.iff t l :: rest) =
      compileBody ev fuel st1 rest := by
  simp only [compileBody, bind, Except.bind, h1]

/-- The single `if … else … end` node (empty branches) used by the C4
counterexample. -/
def iffN : AstKind := AstKind.iff [] (some [])

/-- An item mapping on which unit-wide label uniqueness fails: procedure `a`
synthesizes counters `0`–`11` (so the names `.a0` … `.a11`), while procedure
`a1` synthesizes `.a10` and `.a11` — the same strings. -/
def c4Items : Items :=
  [("a", TopLevel.proc ⟨⟨[], []⟩, [iffN, iffN, iffN, iffN, iffN, iffN]⟩,
    ⟨"t", 0, 0⟩, true),
   ("a1", TopLevel.proc ⟨⟨[], []⟩, [iffN]⟩, ⟨"t", 0, 0⟩, true)]


/-- C4 counterexample: lowering state of procedure `a` after 0 of its six
conditionals. -/
def c4A0 : St :=
  { label := 0, currentName := "a",
    result := [.call "main",
       .exit,
       .proc "a"],
    consts := [], strings := [] }

/-- C4 counterexample: lowering state of procedure `a` after 1 of its six
conditionals. -/
def c4A1 : St :=
  { label := 2, currentName := "a",
    result := [.call "main",
       .exit,
       .proc "a",
       .jumpF ".a0",
       .jump ".a1",
       .label ".a0",
       .label ".a1"],
    consts := [], strings := [] }

/-- C4 counterexample: lowering state of procedure `a` after 2 of its six
conditionals. -/
def c4A2 : St :=
  { label := 4, currentName := "a",
    result := [.call "main",
       .exit,
       .proc "a",
       .jumpF ".a0",
       .jump ".a1",
       .label ".a0",
       .label ".a1",
       .jumpF ".a2",
       .jump ".a3",
       .label ".a2",
       .label ".a3"],
    consts := [], strings := [] }

/-- C4 counterexample: lowering state of procedure `a` after 3 of its six
conditionals. -/
def c4A3 : St :=
  { label := 6, currentName := "a",
    result := [.call "main",
       .exit,
       .proc "a",
       .jumpF ".a0",
       .jump ".a1",
       .label ".a0",
       .label ".a1",
       .jumpF ".a2",
       .jump ".a3",
       .label ".a2",
       .label ".a3",
       .jumpF ".a4",
       .jump ".a5",
       .label ".a4",
       .label ".a5"],
    consts := [], strings := [] }

/-- C4 counterexample: lowering state of procedure `a` after 4 of its six
conditionals. -/
def c4A4 : St :=
  { label := 8, currentName := "a",
    result := [.call "main",
       .exit,
       .proc "a",
       .jumpF ".a0",
       .jump ".a1",
       .label ".a0",
       .label ".a1",
       .jumpF ".a2",
       .jump ".a3",
       .label ".a2",
       .label ".a3",
       .jumpF ".a4",
       .jump ".a5",
       .label ".a4",
       .label ".a5",
       .jumpF ".a6",
       .jump ".a7",
       .label ".a6",
       .label ".a7"],
    consts := [], strings := [] }

/-- C4 counterexample: lowering state of procedure `a` after 5 of its six
conditionals. -/
def c4A5 : St :=
  { label := 10, currentName := "a",
    result := [.call "main",
       .exit,
       .proc "a",
       .jumpF ".a0",
       .jump ".a1",
       .label ".a0",
       .label ".a1",
       .jumpF ".a2",
       .jump ".a3",
       .label ".a2",
       .label ".a3",
       .jumpF ".a4",
       .jump ".a5",
       .label ".a4",
       .label ".a5",
       .jumpF ".a6",
       .jump ".a7",
       .label ".a6",
       .label ".a7",
       .jumpF ".a8",
       .jump ".a9",
       .label ".a8",
       .label ".a9"],
    consts := [], strings := [] }

/-- C4 counterexample: lowering state of procedure `a` after 6 of its six
conditionals. -/
def c4A6 : St :=
  { label := 12, currentName := "a",
    result := [.call "main",
       .exit,
       .proc "a",
       .jumpF ".a0",
       .jump ".a1",
       .label ".a0",
       .label ".a1",
       .jumpF ".a2",
       .jump ".a3",
       .label ".a2",
       .label ".a3",
       .jumpF ".a4",
       .jump ".a5",
       .label ".a4",
       .label ".a5",
       .jumpF ".a6",
       .jump ".a7",
       .label ".a6",
       .label ".a7",
       .jumpF ".a8",
       .jump ".a9",
       .label ".a8",
       .label ".a9",
       .jumpF ".a10",
       .jump ".a11",
       .label ".a10",
       .label ".a11"],
    consts := [], strings := [] }

/-- C4 counterexample: state after procedure `a` is fully lowered. -/
def c4A7 : St :=
  { label := 12, currentName := "a",
    result := [.call "main",
       .exit,
       .proc "a",
       .jumpF ".a0",
       .jump ".a1",
       .label ".a0",
       .label ".a1",
       .jumpF ".a2",
       .jump ".a3",
       .label ".a2",
       .label ".a3",
       .jumpF ".a4",
       .jump ".a5",
       .label ".a4",
       .label ".a5",
       .jumpF ".a6",
       .jump ".a7",
       .label ".a6",
       .label ".a7",
       .jumpF ".a8",
       .jump ".a9",
       .label ".a8",
       .label ".a9",
       .jumpF ".a10",
       .jump ".a11",
       .label ".a10",
       .label ".a11",
       .ret],
    consts := [], strings := [] }

/-- C4 counterexample: final state after both procedures. -/
def c4Fin : St :=
  { label := 2, currentName := "a1",
    result := [.call "main",
       .exit,
       .proc "a",
       .jumpF ".a0",
       .jump ".a1",
       .label ".a0",
       .label ".a1",
       .jumpF ".a2",
       .jump ".a3",
       .label ".a2",
       .label ".a3",
       .jumpF ".a4",
       .jump ".a5",
       .label ".a4",
       .label ".a5",
       .jumpF ".a6",
       .jump ".a7",
       .label ".a6",
       .label ".a7",
       .jumpF ".a8",
       .jump ".a9",
       .label ".a8",
       .label ".a9",
       .jumpF ".a10",
       .jump ".a11",
       .label ".a10",
       .label ".a11",
       .ret,
       .proc "a1",
       .jumpF ".a10",
       .jump ".a11",
       .label ".a10",
       .label ".a11",
       .ret],
    consts := [], strings := [] }

/-- C4 counterexample: compiler state after `call main; exit` are emitted. -/
def c4Init : St :=
  { label := 0, currentName := "",
    result := [.call "main", .exit],
    consts := [], strings := [] }

/-- C4 counterexample: a compiled unit in which two different procedures
synthesize the same label names (`.a10` and `.a11` come from both `a`, at
counters 10 and 11, and `a1`, at counters 0 and 1), so the synthesized label
names of the unit are *not* pairwise distinct.  The lowering is staged
through explicit intermediate states to keep each evaluation small. -/
theorem unit_labels_alias :
    labelNames (resultOps (compile evNever 20 St.new c4Items)) =
      [".a0", ".a1", ".a2", ".a3", ".a4", ".a5", ".a6", ".a7", ".a8", ".a9",
       ".a10", ".a11", ".a10", ".a11"] ∧
    ¬ ([".a0", ".a1", ".a2", ".a3", ".a4", ".a5", ".a6", ".a7", ".a8", ".a9",
       ".a10", ".a11", ".a10", ".a11"] : List String).Nodup := by
  have c1 : compileCond evNever 19 c4A0 [] (some []) = .ok c4A1 := rfl
  have s1 : compileBody evNever 20 c4A0 [iffN, iffN, iffN, iffN, iffN, iffN] =
      compileBody evNever 19 c4A1 [iffN, iffN, iffN, iffN, iffN] :=
    compileBody_iff_step evNever 19 c4A0 [] (some []) [iffN, iffN, iffN, iffN, iffN] c4A1 c1
  have c2 : compileCond evNever 18 c4A1 [] (some []) = .ok c4A2 := rfl
  have s2 : compileBody evNever 19 c4A1 [iffN, iffN, iffN, iffN, iffN] =
      compileBody evNever 18 c4A2 [iffN, iffN, iffN, iffN] :=
    compileBody_iff_step evNever 18 c4A1 [] (some []) [iffN, iffN, iffN, iffN] c4A2 c2
  have c3 : compileCond evNever 17 c4A2 [] (some []) = .ok c4A3 := rfl
  have s3 : compileBody evNever 18 c4A2 [iffN, iffN, iffN, iffN] =
      compileBody evNever 17 c4A3 [iffN, iffN, iffN] :=
    compileBody_iff_step evNever 17 c4A2 [] (some []) [iffN, iffN, iffN] c4A3 c3
  have c4 : compileCond evNever 16 c4A3 [] (some []) = .ok c4A4 := rfl
  have s4 : compileBody evNever 17 c4A3 [iffN, iffN, iffN] =
      compileBody evNever 16 c4A4 [iffN, iffN] :=
    compileBody_iff_step evNever 16 c4A3 [] (some []) [iffN, iffN] c4A4 c4
  have c5 : compileCond evNever 15 c4A4 [] (some []) = .ok c4A5 := rfl
  have s5 : compileBody evNever 16 c4A4 [iffN, iffN] =
      compileBody evNever 15 c4A5 [iffN] :=
    compileBody_iff_step evNever 15 c4A4 [] (some []) [iffN] c4A5 c5
  have c6 : compileCond evNever 14 c4A5 [] (some []) = .ok c4A6 := rfl
  have s6 : compileBody evNever 15 c4A5 [iffN] =
      compileBody evNever 14 c4A6 [] :=
    compileBody_iff_step evNever 14 c4A5 [] (some []) [] c4A6 c6
  have s7 : compileBody evNever 14 c4A6 ([] : List AstKind) = .ok c4A6 := rfl
  have hbodyA : compileBody evNever 20 c4A0 [iffN, iffN, iffN, iffN, iffN, iffN] =
      .ok c4A6 := by
    rw [s1, s2, s3, s4, s5, s6, s7]
  have hbA : compileBody evNever 20
      (emit { c4Init with label := 0, currentName := "a" } (Op.proc "a"))
      [iffN, iffN, iffN, iffN, iffN, iffN] = .ok c4A6 := hbodyA
  have hprocA : compileProc evNever 20 c4Init "a"
      ⟨⟨[], []⟩, [iffN, iffN, iffN, iffN, iffN, iffN]⟩ = .ok c4A7 := by
    simp only [compileProc, hbA]
    rfl
  have hprocA1 : compileProc evNever 20 c4A7 "a1" ⟨⟨[], []⟩, [iffN]⟩ =
      .ok c4Fin := rfl
  have hprocs : compileProcs evNever 20 c4Init
      [("a", ⟨⟨[], []⟩, [iffN, iffN, iffN, iffN, iffN, iffN]⟩),
       ("a1", ⟨⟨[], []⟩, [iffN]⟩)] = .ok c4Fin := by
    simp only [compileProcs, bind, Except.bind, hprocA, hprocA1]
  have hpr : compileProcs evNever 20
      (emit (emit { St.new with consts := neededConsts c4Items } (Op.call "main"))
        Op.exit) (neededProcs c4Items) = .ok c4Fin := hprocs
  have hcompile : compile evNever 20 St.new c4Items = .ok (c4Fin.result, []) := by
    simp only [compile, hpr]
    rfl
  rw [hcompile]
  exact ⟨rfl, by decide⟩

/-- The state in which the C3 witness lowers its conditional: inside a
procedure named `main`, nothing lowered yet. -/
def c3St : St :=
  { label := 0, currentName := "main", result := [], consts := [], strings := [] }

/-- The lowering state after the C3 witness conditional. -/
def c3St' : St :=
  { label := 2, currentName := "main",
    result := [.jumpF ".main0", .push (.U64 1), .jump ".main1",
               .label ".main0", .push (.U64 2), .label ".main1"],
    consts := [], strings := [] }

/-- C3 witness: the concrete conditional `if 1 else 2 end` inside `main`. -/
theorem ifElse_lowering_shape_witness :
    compileCond evNever 9 c3St [.literal (.U64 1)] (some [.literal (.U64 2)]) =
      .ok c3St' ∧
    (∃ dT dE m,
      c3St.label < m ∧
      lbl c3St.currentName m ≠ lbl c3St.currentName c3St.label ∧
      c3St'.result = c3St.result
        ++ [Op.jumpF (lbl c3St.currentName c3St.label)]
        ++ dT
        ++ [Op.jump (lbl c3St.currentName m),
            Op.label (lbl c3St.currentName c3St.label)]
        ++ dE
        ++ [Op.label (lbl c3St.currentName m)] ∧
      (noCF [.literal (.U64 1)] = true → noCF [.literal (.U64 2)] = true →
        m = c3St.label + 1 ∧ c3St'.label = c3St.label + 2)) :=
  ⟨rfl, ifElse_lowering_shape evNever 8 c3St [.literal (.U64 1)]
    [.literal (.U64 2)] c3St' rfl⟩

/-! ### Constant folding: memoization and the one-retry discipline (C5) -/

/-- C5.  `compile_const` (1) returns a cached immediate unchanged without
re-entering evaluation; (2) memoizes every successful fold under the
constant's name, so a second request returns the same value and leaves the
state untouched; (3) when the evaluator signals blockage on `req`, folds
`req` by one recursive call, re-lowers and re-evaluates the body exactly once
more and caches the result; and (4) treats a second blockage after that
retry as `unreachable!()`. -/
theorem compile_const_memo_and_retry (ev : EvalFn) (fuel : Nat) (st : St)
    (name : String) :
    (∀ i, lookupConst st.consts name = some (.compiled i) →
      compileConst ev (fuel + 1) st name = .ok (i, st)) ∧
    (∀ v st', compileConst ev fuel st name = .ok (v, st') →
      lookupConst st'.consts name = some (.compiled v) ∧
      ∀ f2, compileConst ev (f2 + 1) st' name = .ok (v, st')) ∧
    (∀ c com1 req v2 st2 com2 bytes v,
      lookupConst st.consts name = some (.notCompiled c) →
      compileBody ev fuel (withConstsAndStrings st.consts st.strings) c.body
        = .ok com1 →
      ev (com1.result ++ [Op.exit]) com1.strings = .blocked req →
      compileConst ev fuel
        { st with consts := com1.consts, strings := com1.strings } req
        = .ok (v2, st2) →
      compileBody ev fuel (withConstsAndStrings st2.consts st2.strings) c.body
        = .ok com2 →
      ev (com2.result ++ [Op.exit]) com2.strings = .ok bytes →
      tyReinterpret c.ty bytes = .ok v →
      compileConst ev (fuel + 1) st name =
        .ok (v, { st2 with
          consts := insertConst name (ComConst.compiled v) com2.consts,
          strings := com2.strings })) ∧
    (∀ c com1 req v2 st2 com2 req2,
      lookupConst st.consts name = some (.notCompiled c) →
      compileBody ev fuel (withConstsAndStrings st.consts st.strings) c.body
        = .ok com1 →
      ev (com1.result ++ [Op.exit]) com1.strings = .blocked req →
      compileConst ev fuel
        { st with consts := com1.consts, strings := com1.strings } req
        = .ok (v2, st2) →
      compileBody ev fuel (withConstsAndStrings st2.consts st2.strings) c.body
        = .ok com2 →
      ev (com2.result ++ [Op.exit]) com2.strings = .blocked req2 →
      compileConst ev (fuel + 1) st name = .error .panicUnreachable) := by
  refine ⟨?_, ?_, ?_, ?_⟩
  · intro i hl
    simp only [compileConst, hl]
  · intro v st' h
    have hlook : lookupConst st'.consts name = some (.compiled v) := by
      match fuel with
      | 0 => exact absurd h (by simp [compileConst])
      | fuel + 1 =>
        simp only [compileConst, bind, Except.bind] at h
        split at h
        · rename_i i hl
          obtain ⟨rfl, rfl⟩ := Prod.mk.inj (Except.ok.inj h)
          exact hl
        · exact absurd h (by simp)
        · split at h
          · exact absurd h (by simp)
          · rename_i com hcb
            split at h
            · split at h
              · exact absurd h (by simp)
              · rename_i w hty
                obtain ⟨rfl, rfl⟩ := Prod.mk.inj (Except.ok.inj h)
                simp [lookupConst, insertConst]
            · split at h
              · exact absurd h (by simp)
              · rename_i p hrec
                obtain ⟨v2, st2⟩ := p
                split at h
                · exact absurd h (by simp)
                · rename_i com2 hcb2
                  split at h
                  · split at h
                    · exact absurd h (by simp)
                    · rename_i w hty
                      obtain ⟨rfl, rfl⟩ := Prod.mk.inj (Except.ok.inj h)
                      simp [lookupConst, insertConst]
                  · exact absurd h (by simp)
    exact ⟨hlook, fun f2 => by simp only [compileConst, hlook]⟩
  · intro c com1 req v2 st2 com2 bytes v hl hcb1 hev1 hrec hcb2 hev2 hty
    simp only [compileConst, bind, Except.bind, hl, hcb1, emit, hev1, hrec,
      hcb2, hev2, hty]
  · intro c com1 req v2 st2 com2 req2 hl hcb1 hev1 hrec hcb2 hev2
    simp only [compileConst, bind, Except.bind, hl, hcb1, emit, hev1, hrec,
      hcb2, hev2]

/-- Body of constant `A` in the C5 witness: `1`. -/
def c5cA : Konst := ⟨[.literal (.U64 1)], .u64⟩

/-- Body of constant `C` in the C5 witness: a string literal, so folding it
grows the shared string pool (making the retry observable to the evaluator). -/
def c5cC : Konst := ⟨[.literal (.Str "x")], .u64⟩

/-- Body of constant `B` in the C5 witness: `2`. -/
def c5cB : Konst := ⟨[.literal (.U64 2)], .u64⟩

/-- External evaluator for the retry-then-succeed scenario: blocked on `C`
while the pool is empty, then a result. -/
def c5ev1 : EvalFn := fun ops strs =>
  match strs with
  | [] => .blocked "C"
  | _ => if ops = [Op.pushStr 0, Op.exit] then .ok 7 else .ok 5

/-- External evaluator for the twice-blocked scenario: only `B`'s body
evaluates; everything else is reported blocked on `B`. -/
def c5ev2 : EvalFn := fun ops _ =>
  if ops = [Op.push (.U64 2), Op.exit] then .ok 2 else .blocked "B"

def c5st1 : St :=
  ⟨0, "", [], [("A", .notCompiled c5cA), ("C", .notCompiled c5cC)], []⟩

def c5com1 : St :=
  ⟨0, "", [.push (.U64 1)],
   [("A", .notCompiled c5cA), ("C", .notCompiled c5cC)], []⟩

def c5st2 : St :=
  ⟨0, "", [],
   ("C", .compiled (.U64 7)) ::
     [("A", .notCompiled c5cA), ("C", .notCompiled c5cC)], ["x"]⟩

def c5com2 : St :=
  ⟨0, "", [.push (.U64 1)],
   ("C", .compiled (.U64 7)) ::
     [("A", .notCompiled c5cA), ("C", .notCompiled c5cC)], ["x"]⟩

def c5fin : St :=
  ⟨0, "", [],
   ("A", .compiled (.U64 5)) :: ("C", .compiled (.U64 7)) ::
     [("A", .notCompiled c5cA), ("C", .notCompiled c5cC)], ["x"]⟩

def c5st3 : St :=
  ⟨0, "", [], [("A", .notCompiled c5cA), ("B", .notCompiled c5cB)], []⟩

def c5com3 : St :=
  ⟨0, "", [.push (.U64 1)],
   [("A", .notCompiled c5cA), ("B", .notCompiled c5cB)], []⟩

def c5st4 : St :=
  ⟨0, "", [],
   ("B", .compiled (.U64 2)) ::
     [("A", .notCompiled c5cA), ("B", .notCompiled c5cB)], []⟩

def c5com4 : St :=
  ⟨0, "", [.push (.U64 1)],
   ("B", .compiled (.U64 2)) ::
     [("A", .notCompiled c5cA), ("B", .notCompiled c5cB)], []⟩

/-- C5 witness: folding `A` blocks on `C`, `C` is folded first, the retry
succeeds and is cached; a second request for `A` hits the cache; and in the
twice-blocked scenario the retry's second blockage is `unreachable!()`. -/
theorem compile_const_memo_and_retry_witness :
    compileConst c5ev1 9 c5st1 "A" = .ok (.U64 5, c5fin) ∧
    compileConst c5ev1 10 c5fin "A" = .ok (.U64 5, c5fin) ∧
    compileConst c5ev2 9 c5st3 "A" = .error .panicUnreachable := by
  have h3 := (compile_const_memo_and_retry c5ev1 8 c5st1 "A").2.2.1
    c5cA c5com1 "C" (.U64 7) c5st2 c5com2 5 (.U64 5) rfl rfl rfl rfl rfl rfl rfl
  have h3' : compileConst c5ev1 9 c5st1 "A" = .ok (.U64 5, c5fin) := h3
  have h2 := ((compile_const_memo_and_retry c5ev1 9 c5st1 "A").2.1
    (.U64 5) c5fin h3').2 9
  have h4 := (compile_const_memo_and_retry c5ev2 8 c5st3 "A").2.2.2
    c5cA c5com3 "B" (.U64 2) c5st4 c5com4 "B" rfl rfl rfl rfl rfl rfl
  exact ⟨h3', h2, h4⟩

/-! ### Traversal-order locality (claim C6)

With an empty fold cache, lowering a block reads only the label counter, the
current name and the string pool — never the instructions already emitted.
Two states agreeing on those fields therefore produce the same instruction
delta.  This is what makes per-procedure output independent of the position
of the procedure in the (hash-map ordered) traversal. -/

theorem locality (ev : EvalFn) : ∀ fuel : Nat,
    (∀ body (st1 st2 st1' : St),
      st1.consts = [] → st2.consts = [] → st1.label = st2.label →
      st1.currentName = st2.currentName → st1.strings = st2.strings →
      compileBody ev fuel st1 body = .ok st1' →
      ∃ st2', compileBody ev fuel st2 body = .ok st2' ∧
        st1'.consts = [] ∧ st2'.consts = [] ∧ st1'.label = st2'.label ∧
        st1'.currentName = st2'.currentName ∧ st1'.strings = st2'.strings ∧
        ∃ d, st1'.result = st1.result ++ d ∧ st2'.result = st2.result ++ d) ∧
    (∀ truth lie (st1 st2 st1' : St),
      st1.consts = [] → st2.consts = [] → st1.label = st2.label →
      st1.currentName = st2.currentName → st1.strings = st2.strings →
      compileCond ev fuel st1 truth lie = .ok st1' →
      ∃ st2', compileCond ev fuel st2 truth lie = .ok st2' ∧
        st1'.consts = [] ∧ st2'.consts = [] ∧ st1'.label = st2'.label ∧
        st1'.currentName = st2'.currentName ∧ st1'.strings = st2'.strings ∧
        ∃ d, st1'.result = st1.result ++ d ∧ st2'.result = st2.result ++ d) ∧
    (∀ cond body (st1 st2 st1' : St),
      st1.consts = [] → st2.consts = [] → st1.label = st2.label →
      st1.currentName = st2.currentName → st1.strings = st2.strings →
      compileWhile ev fuel st1 cond body = .ok st1' →
      ∃ st2', compileWhile ev fuel st2 cond body = .ok st2' ∧
        st1'.consts = [] ∧ st2'.consts = [] ∧ st1'.label = st2'.label ∧
        st1'.currentName = st2'.currentName ∧ st1'.strings = st2'.strings ∧
        ∃ d, st1'.result = st1.result ++ d ∧ st2'.result = st2.result ++ d) := by
  intro fuel
  induction fuel with
  | zero =>
    refine ⟨?_, ?_, ?_⟩ <;> intros <;> simp_all [compileBody,
      compileCond, compileWhile]
  | succ fuel ih =>
    obtain ⟨ihBody, ihCond, ihWhile⟩ := ih
    have hbody : ∀ body (st1 st2 st1' : St),
        st1.consts = [] → st2.consts = [] → st1.label = st2.label →
        st1.currentName = st2.currentName → st1.strings = st2.strings →
        compileBody ev (fuel + 1) st1 body = .ok st1' →
        ∃ st2', compileBody ev (fuel + 1) st2 body = .ok st2' ∧
          st1'.consts = [] ∧ st2'.consts = [] ∧ st1'.label = st2'.label ∧
          st1'.currentName = st2'.currentName ∧ st1'.strings = st2'.strings ∧
          ∃ d, st1'.result = st1.result ++ d ∧ st2'.result = st2.result ++ d := by
      intro body st1 st2 st1' hc1 hc2 hlab hname hstr h
      match body with
      | [] =>
        obtain rfl := Except.ok.inj (by simpa only [compileBody] using h)
        exact ⟨st2, by simp only [compileBody], hc1, hc2, hlab,
          hname, hstr, [], by simp, by simp⟩
      | node :: rest =>
        -- same-shape step: both runs emit the same single instruction and
        -- continue on `rest`
        have hemit : ∀ (stb1 stb2 : St) (op : Op),
            stb1.consts = [] → stb2.consts = [] → stb1.label = stb2.label →
            stb1.currentName = stb2.currentName → stb1.strings = stb2.strings →
            stb1.result = st1.result → stb2.result = st2.result →
            compileBody ev fuel (emit stb1 op) rest = .ok st1' →
            ∃ st2', compileBody ev fuel (emit stb2 op) rest = .ok st2' ∧
              st1'.consts = [] ∧ st2'.consts = [] ∧ st1'.label = st2'.label ∧
              st1'.currentName = st2'.currentName ∧ st1'.strings = st2'.strings ∧
              ∃ d, st1'.result = st1.result ++ d ∧
                st2'.result = st2.result ++ d := by
          intro stb1 stb2 op hbc1 hbc2 hblab hbname hbstr hbr1 hbr2 hrec
          obtain ⟨st2', h2, g1, g2, g3, g4, g5, d, hd1, hd2⟩ :=
            ihBody rest (emit stb1 op) (emit stb2 op) st1' hbc1 hbc2
              (by show stb1.label = stb2.label; exact hblab)
              (by show stb1.currentName = stb2.currentName; exact hbname)
              (by show stb1.strings = stb2.strings; exact hbstr) hrec
          refine ⟨st2', h2, g1, g2, g3, g4, g5, [op] ++ d, ?_, ?_⟩
          · have : st1'.result = (stb1.result ++ [op]) ++ d := hd1
            rw [this, hbr1]; simp
          · have : st2'.result = (stb2.result ++ [op]) ++ d := hd2
            rw [this, hbr2]; simp
        cases node with
        | literal c =>
          cases c with
          | Str s =>
            simp only [compileBody] at h ⊢
            rw [hstr] at h
            exact hemit { st1 with strings := st2.strings ++ [s] }
              { st2 with strings := st2.strings ++ [s] } _ hc1 hc2 hlab hname
              rfl rfl rfl h
          | Bool w =>
            simp only [compileBody] at h ⊢
            exact hemit st1 st2 _ hc1 hc2 hlab hname hstr rfl rfl h
          | U64 w =>
            simp only [compileBody] at h ⊢
            exact hemit st1 st2 _ hc1 hc2 hlab hname hstr rfl rfl h
          | I64 w =>
            simp only [compileBody] at h ⊢
            exact hemit st1 st2 _ hc1 hc2 hlab hname hstr rfl rfl h
        | word w =>
          have hcc1 : containsConst st1.consts w = false := by
            rw [hc1]; rfl
          have hcc2 : containsConst st2.consts w = false := by
            rw [hc2]; rfl
          simp only [compileBody, hcc1, hcc2, Bool.false_eq_true,
            if_false] at h ⊢
          exact hemit st1 st2 _ hc1 hc2 hlab hname hstr rfl rfl h
        | intrinsic i =>
          cases i <;> simp only [compileBody] at h ⊢
          case compStop =>
            obtain rfl := Except.ok.inj h
            exact ⟨st2, rfl, hc1, hc2, hlab, hname, hstr, [], by simp, by simp⟩
          all_goals exact hemit st1 st2 _ hc1 hc2 hlab hname hstr rfl rfl h
        | iff truth lie =>
          simp only [compileBody, bind, Except.bind] at h ⊢
          split at h
          · exact absurd h (by simp)
          · rename_i stm1 h1
            obtain ⟨stm2, h2, g1, g2, g3, g4, g5, d1, hd11, hd12⟩ :=
              ihCond truth lie st1 st2 stm1 hc1 hc2 hlab hname hstr h1
            rw [h2]
            obtain ⟨st2', hrec2, k1, k2, k3, k4, k5, d2, hd21, hd22⟩ :=
              ihBody rest stm1 stm2 st1' g1 g2 g3 g4 g5 h
            refine ⟨st2', hrec2, k1, k2, k3, k4, k5, d1 ++ d2, ?_, ?_⟩
            · rw [hd21, hd11]; simp
            · rw [hd22, hd12]; simp
        | whl cond body' =>
          simp only [compileBody, bind, Except.bind] at h ⊢
          split at h
          · exact absurd h (by simp)
          · rename_i stm1 h1
            obtain ⟨stm2, h2, g1, g2, g3, g4, g5, d1, hd11, hd12⟩ :=
              ihWhile cond body' st1 st2 stm1 hc1 hc2 hlab hname hstr h1
            rw [h2]
            obtain ⟨st2', hrec2, k1, k2, k3, k4, k5, d2, hd21, hd22⟩ :=
              ihBody rest stm1 stm2 st1' g1 g2 g3 g4 g5 h
            refine ⟨st2', hrec2, k1, k2, k3, k4, k5, d1 ++ d2, ?_, ?_⟩
            · rw [hd21, hd11]; simp
            · rw [hd22, hd12]; simp
        | bindNode bs b =>
          exact absurd (by simpa only [compileBody] using h) (by simp)
    have hcond : ∀ truth lie (st1 st2 st1' : St),
        st1.consts = [] → st2.consts = [] → st1.label = st2.label →
        st1.currentName = st2.currentName → st1.strings = st2.strings →
        compileCond ev (fuel + 1) st1 truth lie = .ok st1' →
        ∃ st2', compileCond ev (fuel + 1) st2 truth lie = .ok st2' ∧
          st1'.consts = [] ∧ st2'.consts = [] ∧ st1'.label = st2'.label ∧
          st1'.currentName = st2'.currentName ∧ st1'.strings = st2'.strings ∧
          ∃ d, st1'.result = st1.result ++ d ∧ st2'.result = st2.result ++ d := by
      intro truth lie st1 st2 st1' hc1 hc2 hlab hname hstr h
      have hlbl0 : lbl st1.currentName st1.label = lbl st2.currentName st2.label := by
        rw [hlab, hname]
      cases lie with
      | none =>
        simp only [compileCond, genLabel, bind, Except.bind] at h ⊢
        split at h
        · exact absurd h (by simp)
        · rename_i stT1 h1
          obtain ⟨stT2, h2, g1, g2, g3, g4, g5, d1, hd11, hd12⟩ :=
            ihBody truth
              (emit { st1 with label := st1.label + 1 }
                (Op.jumpF (lbl st1.currentName st1.label)))
              (emit { st2 with label := st2.label + 1 }
                (Op.jumpF (lbl st2.currentName st2.label))) stT1
              hc1 hc2 (by show st1.label + 1 = st2.label + 1; omega)
              hname hstr h1
          have h2' : compileBody ev fuel
              (emit { st2 with label := st2.label + 1 }
                (Op.jumpF ("." ++ st2.currentName ++ decRepr st2.label)))
              truth = .ok stT2 := h2
          rw [h2']
          obtain rfl := Except.ok.inj h
          refine ⟨emit stT2 (Op.label (lbl st2.currentName st2.label)), rfl,
            g1, g2, ?_, ?_, ?_, ?_⟩
          · show stT1.label = stT2.label; exact g3
          · show stT1.currentName = stT2.currentName; exact g4
          · show stT1.strings = stT2.strings; exact g5
          · have hd11' : stT1.result =
                (st1.result ++ [Op.jumpF (lbl st1.currentName st1.label)]) ++ d1 :=
              hd11
            have hd12' : stT2.result =
                (st2.result ++ [Op.jumpF (lbl st2.currentName st2.label)]) ++ d1 :=
              hd12
            refine ⟨[Op.jumpF (lbl st1.currentName st1.label)] ++ d1 ++
              [Op.label (lbl st1.currentName st1.label)], ?_, ?_⟩
            · show stT1.result ++ [Op.label (lbl st1.currentName st1.label)] = _
              rw [hd11']; simp
            · show stT2.result ++ [Op.label (lbl st2.currentName st2.label)] = _
              rw [hd12', ← hlbl0]; simp
        | some lieBody =>
          simp only [compileCond, genLabel, bind, Except.bind] at h ⊢
          split at h
          · exact absurd h (by simp)
          · rename_i stT1 h1
            obtain ⟨stT2, h2, g1, g2, g3, g4, g5, d1, hd11, hd12⟩ :=
              ihBody truth
                (emit { st1 with label := st1.label + 1 }
                  (Op.jumpF (lbl st1.currentName st1.label)))
                (emit { st2 with label := st2.label + 1 }
                  (Op.jumpF (lbl st2.currentName st2.label))) stT1
                hc1 hc2 (by show st1.label + 1 = st2.label + 1; omega)
                hname hstr h1
            have h2' : compileBody ev fuel
                (emit { st2 with label := st2.label + 1 }
                  (Op.jumpF ("." ++ st2.currentName ++ decRepr st2.label)))
                truth = .ok stT2 := h2
            rw [h2']
            have hlbl1 : lbl stT1.currentName stT1.label =
                lbl stT2.currentName stT2.label := by
              have e1 : stT1.currentName = stT2.currentName := g4
              have e2 : stT1.label = stT2.label := g3
              rw [e1, e2]
            split at h
            · exact absurd h (by simp)
            · rename_i stE1 hE1
              obtain ⟨stE2, hE2, m1, m2, m3, m4, m5, d2, hd21, hd22⟩ :=
                ihBody lieBody
                  (emit (emit { stT1 with label := stT1.label + 1 }
                    (Op.jump (lbl stT1.currentName stT1.label)))
                    (Op.label (lbl st1.currentName st1.label)))
                  (emit (emit { stT2 with label := stT2.label + 1 }
                    (Op.jump (lbl stT2.currentName stT2.label)))
                    (Op.label (lbl st2.currentName st2.label))) stE1
                  g1 g2 (by show stT1.label + 1 = stT2.label + 1; rw [g3])
                  (by show stT1.currentName = stT2.currentName; exact g4)
                  (by show stT1.strings = stT2.strings; exact g5) hE1
              have hE2' : compileBody ev fuel
                  (emit (emit { stT2 with label := stT2.label + 1 }
                    (Op.jump ("." ++ stT2.currentName ++ decRepr stT2.label)))
                    (Op.label ("." ++ st2.currentName ++ decRepr st2.label)))
                  lieBody = .ok stE2 := hE2
              rw [hE2']
              obtain rfl := Except.ok.inj h
              refine ⟨emit stE2 (Op.label (lbl stT2.currentName stT2.label)),
                rfl, m1, m2, ?_, ?_, ?_, ?_⟩
              · show stE1.label = stE2.label; exact m3
              · show stE1.currentName = stE2.currentName; exact m4
              · show stE1.strings = stE2.strings; exact m5
              · have hd21' : stE1.result =
                    ((stT1.result ++ [Op.jump (lbl stT1.currentName stT1.label)]) ++
                      [Op.label (lbl st1.currentName st1.label)]) ++ d2 := hd21
                have hd22' : stE2.result =
                    ((stT2.result ++ [Op.jump (lbl stT2.currentName stT2.label)]) ++
                      [Op.label (lbl st2.currentName st2.label)]) ++ d2 := hd22
                have hd11' : stT1.result =
                    (st1.result ++ [Op.jumpF (lbl st1.currentName st1.label)]) ++ d1 :=
                  hd11
                have hd12' : stT2.result =
                    (st2.result ++ [Op.jumpF (lbl st2.currentName st2.label)]) ++ d1 :=
                  hd12
                refine ⟨[Op.jumpF (lbl st1.currentName st1.label)] ++ d1 ++
                  [Op.jump (lbl stT1.currentName stT1.label),
                   Op.label (lbl st1.currentName st1.label)] ++ d2 ++
                  [Op.label (lbl stT1.currentName stT1.label)], ?_, ?_⟩
                · show stE1.result ++
                    [Op.label (lbl stT1.currentName stT1.label)] = _
                  rw [hd21', hd11']; simp
                · show stE2.result ++
                    [Op.label (lbl stT2.currentName stT2.label)] = _
                  rw [hd22', hd12', ← hlbl0, ← hlbl1]; simp
    have hwhile : ∀ cond body (st1 st2 st1' : St),
        st1.consts = [] → st2.consts = [] → st1.label = st2.label →
        st1.currentName = st2.currentName → st1.strings = st2.strings →
        compileWhile ev (fuel + 1) st1 cond body = .ok st1' →
        ∃ st2', compileWhile ev (fuel + 1) st2 cond body = .ok st2' ∧
          st1'.consts = [] ∧ st2'.consts = [] ∧ st1'.label = st2'.label ∧
          st1'.currentName = st2'.currentName ∧ st1'.strings = st2'.strings ∧
          ∃ d, st1'.result = st1.result ++ d ∧ st2'.result = st2.result ++ d := by
      intro cond body st1 st2 st1' hc1 hc2 hlab hname hstr h
      have hlbl0 : lbl st1.currentName st1.label = lbl st2.currentName st2.label := by
        rw [hlab, hname]
      have hlbl1 : lbl st1.currentName (st1.label + 1) =
          lbl st2.currentName (st2.label + 1) := by
        rw [hlab, hname]
      simp only [compileWhile, genLabel, bind, Except.bind] at h ⊢
      split at h
      · exact absurd h (by simp)
      · rename_i stC1 h1
        obtain ⟨stC2, h2, g1, g2, g3, g4, g5, d1, hd11, hd12⟩ :=
          ihBody cond
            (emit { st1 with label := st1.label + 2 }
              (Op.label (lbl st1.currentName st1.label)))
            (emit { st2 with label := st2.label + 2 }
              (Op.label (lbl st2.currentName st2.label))) stC1
            hc1 hc2 (by show st1.label + 2 = st2.label + 2; omega)
            hname hstr h1
        have h2' : compileBody ev fuel
            (emit { st2 with label := st2.label + 2 }
              (Op.label ("." ++ st2.currentName ++ decRepr st2.label)))
            cond = .ok stC2 := h2
        rw [h2']
        split at h
        · exact absurd h (by simp)
        · rename_i stB1 hB1
          obtain ⟨stB2, hB2, m1, m2, m3, m4, m5, d2, hd21, hd22⟩ :=
            ihBody body
              (emit stC1 (Op.jumpF (lbl st1.currentName (st1.label + 1))))
              (emit stC2 (Op.jumpF (lbl st2.currentName (st2.label + 1)))) stB1
              g1 g2 (by show stC1.label = stC2.label; exact g3)
              (by show stC1.currentName = stC2.currentName; exact g4)
              (by show stC1.strings = stC2.strings; exact g5) hB1
          have hB2' : compileBody ev fuel
              (emit stC2 (Op.jumpF ("." ++ st2.currentName ++
                decRepr (st2.label + 1)))) body = .ok stB2 := hB2
          rw [hB2']
          obtain rfl := Except.ok.inj h
          refine ⟨emit (emit stB2 (Op.jump (lbl st2.currentName st2.label)))
            (Op.label (lbl st2.currentName (st2.label + 1))), rfl,
            m1, m2, ?_, ?_, ?_, ?_⟩
          · show stB1.label = stB2.label; exact m3
          · show stB1.currentName = stB2.currentName; exact m4
          · show stB1.strings = stB2.strings; exact m5
          · have hd21' : stB1.result =
                (stC1.result ++ [Op.jumpF (lbl st1.currentName (st1.label + 1))]) ++
                  d2 := hd21
            have hd22' : stB2.result =
                (stC2.result ++ [Op.jumpF (lbl st2.currentName (st2.label + 1))]) ++
                  d2 := hd22
            have hd11' : stC1.result =
                (st1.result ++ [Op.label (lbl st1.currentName st1.label)]) ++ d1 :=
              hd11
            have hd12' : stC2.result =
                (st2.result ++ [Op.label (lbl st2.currentName st2.label)]) ++ d1 :=
              hd12
            refine ⟨[Op.label (lbl st1.currentName st1.label)] ++ d1 ++
              [Op.jumpF (lbl st1.currentName (st1.label + 1))] ++ d2 ++
              [Op.jump (lbl st1.currentName st1.label),
               Op.label (lbl st1.currentName (st1.label + 1))], ?_, ?_⟩
            · show (stB1.result ++ [Op.jump (lbl st1.currentName st1.label)]) ++
                [Op.label (lbl st1.currentName (st1.label + 1))] = _
              rw [hd21', hd11']; simp
            · show (stB2.result ++ [Op.jump (lbl st2.currentName st2.label)]) ++
                [Op.label (lbl st2.currentName (st2.label + 1))] = _
              rw [hd22', hd12', ← hlbl0, ← hlbl1]; simp
    exact ⟨hbody, hcond, hwhile⟩

/-- C6 (amended).  The pipeline is deterministic only as a function of input
*and* item-traversal order: each reachable procedure's instruction block is
itself independent of its position in the traversal (two constant-free
states agreeing on the string pool yield the same per-procedure delta), but
the concatenation order follows the `HashMap` iteration order, which Rust
does not fix across runs — see the counterexample, where permuting the item
list permutes the emitted blocks. -/
theorem compileProc_order_independent (ev : EvalFn) (fuel : Nat)
    (name : String) (p : Proc) (st1 st2 st1' : St)
    (hc1 : st1.consts = []) (hc2 : st2.consts = [])
    (hstr : st1.strings = st2.strings)
    (h : compileProc ev fuel st1 name p = .ok st1') :
    ∃ st2' d, compileProc ev fuel st2 name p = .ok st2' ∧
      st1'.result = st1.result ++ d ∧ st2'.result = st2.result ++ d ∧
      st1'.strings = st2'.strings := by
  simp only [compileProc] at h ⊢
  split at h
  · exact absurd h (by simp)
  · rename_i stB1 hB1
    obtain ⟨stB2, hB2, g1, g2, g3, g4, g5, d, hd1, hd2⟩ :=
      (locality ev fuel).1 p.body
        (emit { st1 with label := 0, currentName := name } (Op.proc name))
        (emit { st2 with label := 0, currentName := name } (Op.proc name)) stB1
        hc1 hc2 rfl rfl (by show st1.strings = st2.strings; exact hstr) hB1
    rw [hB2]
    obtain rfl := Except.ok.inj h
    refine ⟨emit stB2 .ret, [Op.proc name] ++ d ++ [Op.ret], rfl, ?_, ?_, ?_⟩
    · have hd1' : stB1.result = (st1.result ++ [Op.proc name]) ++ d := hd1
      show stB1.result ++ [Op.ret] = _
      rw [hd1']; simp
    · have hd2' : stB2.result = (st2.result ++ [Op.proc name]) ++ d := hd2
      show stB2.result ++ [Op.ret] = _
      rw [hd2']; simp
    · show stB1.strings = stB2.strings; exact g5

/-- The two C6 items in one traversal order… -/
def c6a : Items :=
  [("a", TopLevel.proc ⟨⟨[], []⟩, [.literal (.U64 1)]⟩, ⟨"t", 0, 0⟩, true),
   ("b", TopLevel.proc ⟨⟨[], []⟩, [.literal (.U64 2)]⟩, ⟨"t", 0, 0⟩, true)]

/-- …and in the other. -/
def c6b : Items :=
  [("b", TopLevel.proc ⟨⟨[], []⟩, [.literal (.U64 2)]⟩, ⟨"t", 0, 0⟩, true),
   ("a", TopLevel.proc ⟨⟨[], []⟩, [.literal (.U64 1)]⟩, ⟨"t", 0, 0⟩, true)]

/-- C6 counterexample: the same item mapping traversed in two different
orders — as Rust's randomly seeded `HashMap` may do across two runs on
identical input — produces different instruction sequences, so the pipeline
output is not a function of source text and reachability annotation alone. -/
theorem compile_order_dependent :
    c6a.Perm c6b ∧
    compile evNever 9 St.new c6a =
      .ok ([.call "main", .exit, .proc "a", .push (.U64 1), .ret,
            .proc "b", .push (.U64 2), .ret], []) ∧
    compile evNever 9 St.new c6b =
      .ok ([.call "main", .exit, .proc "b", .push (.U64 2), .ret,
            .proc "a", .push (.U64 1), .ret], []) ∧
    compile evNever 9 St.new c6a ≠ compile evNever 9 St.new c6b := by
  refine ⟨List.Perm.swap _ _ _, rfl, rfl, ?_⟩
  intro hcontra
  rw [show compile evNever 9 St.new c6a =
      .ok ([.call "main", .exit, .proc "a", .push (.U64 1), .ret,
            .proc "b", .push (.U64 2), .ret], []) from rfl,
    show compile evNever 9 St.new c6b =
      .ok ([.call "main", .exit, .proc "b", .push (.U64 2), .ret,
            .proc "a", .push (.U64 1), .ret], []) from rfl] at hcontra
  simp at hcontra

/-- State after the program prelude in the C6 witness. -/
def c6Base : St :=
  { label := 0, currentName := "", result := [.call "main", .exit],
    consts := [], strings := [] }

/-- State after procedure `a` has been lowered in the C6 witness. -/
def c6AfterA : St :=
  { label := 0, currentName := "a",
    result := [.call "main", .exit, .proc "a", .push (.U64 1), .ret],
    consts := [], strings := [] }

/-- State after lowering `b` directly after the prelude in the C6 witness. -/
def c6BFirst : St :=
  { label := 0, currentName := "b",
    result := [.call "main", .exit, .proc "b", .push (.U64 2), .ret],
    consts := [], strings := [] }

/-- C6 witness: lowering procedure `b` first (from the prelude state) and
lowering it after procedure `a` yield the same instruction block. -/
theorem compileProc_order_independent_witness :
    c6Base.consts = [] ∧ c6AfterA.consts = [] ∧
    c6Base.strings = c6AfterA.strings ∧
    compileProc evNever 9 c6Base "b" ⟨⟨[], []⟩, [.literal (.U64 2)]⟩ =
      .ok c6BFirst ∧
    (∃ st2' d, compileProc evNever 9 c6AfterA "b"
        ⟨⟨[], []⟩, [.literal (.U64 2)]⟩ = .ok st2' ∧
      c6BFirst.result = c6Base.result ++ d ∧
      st2'.result = c6AfterA.result ++ d ∧
      c6BFirst.strings = st2'.strings) :=
  ⟨rfl, rfl, rfl, rfl,
    compileProc_order_independent evNever 9 "b" ⟨⟨[], []⟩, [.literal (.U64 2)]⟩
      c6Base c6AfterA c6BFirst rfl rfl rfl rfl⟩

/-! ### Tokens and the HIR parser (claims C7 and C10)

The `chumsky` combinators of `hir.rs` are modelled as functions from token
lists to a parse result.  The model keeps chumsky's behaviour on the paths
the claims exercise: alternatives are tried in written order with
backtracking (first success wins), `repeated` is greedy, and a `panic!` /
`unwrap` inside a combinator's mapping function aborts parsing entirely
(`panicked`), distinct from ordinary failure.  Error *values* (expected/found
sets, spans) are not modelled; a failing parser simply yields `fail`. -/

/-- `lexer.rs` `KeyWord`. -/
inductive KeyWord where
  | kwInclude
  | kwReturn
  | kwCond
  | kwIf
  | kwElse
  | kwProc
  | kwWhile
  | kwDo
  | kwBind
  | kwConst
  | kwMem
  | kwVar
  | kwStruct
  | kwCast
  | kwEnd
deriving Repr, DecidableEq

/-- `lexer.rs` `Token`. -/
inductive Token where
  | bool (b : Bool)
  | word (w : String)
  | str (s : String)
  | char (c : Char)
  | keyWord (k : KeyWord)
  | num (s : String)
  | ignore
  | sigSep
  | ptr
  | fieldAccess
deriving Repr, DecidableEq

/-- Result of running a parser: success with the remaining input, ordinary
failure (the next alternative may be tried), a `panic!`/`unwrap` abort inside
a combinator's mapping function, or the fuel bound of the embedding. -/
inductive PRes (α : Type) where
  | ok (a : α) (rest : List Token)
  | fail
  | panicked
  | outOfFuel

/-- The spelling → intrinsic table of `hir.rs::intrinsic`. -/
def intrOfSpelling (w : String) : Option Intrinsic :=
  if w = "drop" then some .drop
  else if w = "dup" then some .dup
  else if w = "swap" then some .swap
  else if w = "over" then some .over
  else if w = "&?&" then some .compStop
  else if w = "&?" then some .dump
  else if w = "print" then some .print
  else if w = "+" then some .add
  else if w = "-" then some .sub
  else if w = "*" then some .mul
  else if w = "divmod" then some .divmod
  else if w = "=" then some .eq
  else if w = "!=" then some .ne
  else if w = "<" then some .lt
  else if w = "<=" then some .le
  else if w = ">" then some .gt
  else if w = ">=" then some .ge
  else none

/-- The guard of `hir.rs::word`: the spellings a word reference may *not*
use.  Note that `+`, `-`, `*` and `divmod` are absent — `word()` itself
would accept them; only the ordering of `word_or_intrinsic` keeps them
intrinsics inside a block. -/
def wordExcluded (w : String) : Bool :=
  w = "drop" || w = "dup" || w = "swap" || w = "over" || w = "&?&" ||
  w = "&?" || w = "print" || w = "=" || w = "!=" || w = "<" || w = "<=" ||
  w = ">" || w = ">="

/-- `hir.rs::word`. -/
def wordP : List Token → PRes AstKind
  | Token.word w :: rest =>
    if wordExcluded w then .fail else .ok (.word w) rest
  | _ => .fail

/-- `hir.rs::intrinsic`. -/
def intrinsicP : List Token → PRes AstKind
  | Token.word w :: rest =>
    match intrOfSpelling w with
    | some i => .ok (.intrinsic i) rest
    | none => .fail
  | _ => .fail

/-- `hir.rs::word_or_intrinsic = choice((intrinsic(), word()))`. -/
def wordOrIntrinsicP (ts : List Token) : PRes AstKind :=
  match intrinsicP ts with
  | .ok a rest => .ok a rest
  | .panicked => .panicked
  | .outOfFuel => .outOfFuel
  | .fail => wordP ts

/-- `hir.rs::identifier`: any `Word` token, with no exclusions at all. -/
def identifierP : List Token → PRes String
  | Token.word w :: rest => .ok w rest
  | _ => .fail

/-- `hir.rs::ty`. -/
def tyP : List Token → PRes Ty
  | Token.word w :: rest =>
    if w = "int" then .ok .i64 rest
    else if w = "uint" then .ok .u64 rest
    else if w = "bool" then .ok .bool rest
    else .fail
  | _ => .fail

/-- The `bool` literal parser in `hir.rs::body`. -/
def boolP : List Token → PRes AstKind
  | Token.word w :: rest =>
    if w = "true" then .ok (.literal (.Bool 1)) rest
    else if w = "false" then .ok (.literal (.Bool 0)) rest
    else .fail
  | _ => .fail

/-- Decimal value of a digit string. -/
def decVal (cs : List Char) : Nat :=
  cs.foldl (fun a c => a * 10 + (c.toNat - 48)) 0

/-- Rust's `str::parse::<u64>()`: all-digit non-empty strings whose value
fits in 64 bits; anything else is `Err` (and the caller `unwrap`s). -/
def parseU64 (s : String) : Option Nat :=
  if s.data ≠ [] ∧ s.data.all Char.isDigit then
    (if decVal s.data < 2 ^ 64 then some (decVal s.data) else none)
  else none

/-- The `num` parser in `hir.rs::body`: `n.parse::<u64>().unwrap()` — an
out-of-range literal panics. -/
def numP : List Token → PRes AstKind
  | Token.num s :: rest =>
    match parseU64 s with
    | some n => .ok (.literal (.U64 n)) rest
    | none => .panicked
  | _ => .fail

/-- `just(token)` (the result is discarded by the callers modelled here). -/
def justP (t : Token) : List Token → PRes Unit
  | t' :: rest => if t = t' then .ok () rest else .fail
  | _ => .fail

/-- The `ignore` binding parser in `hir.rs::body`. -/
def ignoreP : List Token → PRes Binding
  | Token.ignore :: rest => .ok .ignore rest
  | _ => .fail

/-- `name_type` in `hir.rs::body`: `identifier : type`. -/
def nameTypeP (ts : List Token) : PRes Binding :=
  match identifierP ts with
  | .ok name rest =>
    match justP Token.sigSep rest with
    | .ok _ rest =>
      match tyP rest with
      | .ok ty rest => .ok (.bind name ty) rest
      | .fail => .fail
      | .panicked => .panicked
      | .outOfFuel => .outOfFuel
    | .fail => .fail
    | .panicked => .panicked
    | .outOfFuel => .outOfFuel
  | .fail => .fail
  | .panicked => .panicked
  | .outOfFuel => .outOfFuel

/-- Greedy `p.repeated()`, with fuel bounding the number of iterations. -/
def manyP {α : Type} (p : List Token → PRes α) :
    Nat → List Token → PRes (List α)
  | 0, _ => .outOfFuel
  | fuel + 1, ts =>
    match p ts with
    | .ok a rest =>
      match manyP p fuel rest with
      | .ok as rest' => .ok (a :: as) rest'
      | .fail => .fail
      | .panicked => .panicked
      | .outOfFuel => .outOfFuel
    | .fail => .ok [] ts
    | .panicked => .panicked
    | .outOfFuel => .outOfFuel

/-- Selector for the mutually recursive body parsers of `hir.rs`
(`body`'s element alternation, `body` itself, `cond`, `while_`, `bind`).
They are modelled as one fuel-structural function so that closed parses
evaluate definitionally. -/
inductive BTask where
  | element
  | block
  | condT
  | whileT
  | bindT

/-- Result type of each body-parser task. -/
def BTask.out : BTask → Type
  | .element => AstKind
  | .block => List AstKind
  | .condT => AstKind
  | .whileT => AstKind
  | .bindT => AstKind

/-- The mutually recursive part of `hir.rs::body`, one fuel level per call:
`element` is `choice((bool, word_or_intrinsic(), num, cond, while_, bind))`;
`block` is the greedy `repeated()`; `condT` is `if` *body* (`else` *body*)?
`end`; `whileT` is `while` *body* `do` *body* `end`; `bindT` is
`bind` (name `:` type | `_`)+ `do` *body* `end`. -/
def parseRun : (fuel : Nat) → (t : BTask) → List Token → PRes t.out
  | 0, _, _ => .outOfFuel
  | fuel + 1, .element, ts =>
    (match boolP ts with
    | .ok a rest => .ok a rest
    | .panicked => .panicked
    | .outOfFuel => .outOfFuel
    | .fail =>
      match wordOrIntrinsicP ts with
      | .ok a rest => .ok a rest
      | .panicked => .panicked
      | .outOfFuel => .outOfFuel
      | .fail =>
        match numP ts with
        | .ok a rest => .ok a rest
        | .panicked => .panicked
        | .outOfFuel => .outOfFuel
        | .fail =>
          match parseRun fuel .condT ts with
          | .ok a rest => .ok a rest
          | .panicked => .panicked
          | .outOfFuel => .outOfFuel
          | .fail =>
            match parseRun fuel .whileT ts with
            | .ok a rest => .ok a rest
            | .panicked => .panicked
            | .outOfFuel => .outOfFuel
            | .fail => parseRun fuel .bindT ts)
  | fuel + 1, .block, ts =>
    (match parseRun fuel .element ts with
    | .ok a rest =>
      match parseRun fuel .block rest with
      | .ok as rest2 => .ok (a :: as) rest2
      | .fail => .fail
      | .panicked => .panicked
      | .outOfFuel => .outOfFuel
    | .fail => .ok [] ts
    | .panicked => .panicked
    | .outOfFuel => .outOfFuel)
  | fuel + 1, .condT, ts =>
    (match justP (Token.keyWord .kwIf) ts with
    | .ok _ rest =>
      (match parseRun fuel .block rest with
      | .ok truth rest =>
        (match justP (Token.keyWord .kwElse) rest with
          | .ok _ rest2 =>
            (match parseRun fuel .block rest2 with
            | .ok lie rest3 =>
              (match justP (Token.keyWord .kwEnd) rest3 with
              | .ok _ rest4 => .ok (.iff truth (some lie)) rest4
              | .fail => .fail
              | .panicked => .panicked
              | .outOfFuel => .outOfFuel)
            | .fail => .fail
            | .panicked => .panicked
            | .outOfFuel => .outOfFuel)
          | .fail =>
            (match justP (Token.keyWord .kwEnd) rest with
            | .ok _ rest2 => .ok (.iff truth none) rest2
            | .fail => .fail
            | .panicked => .panicked
            | .outOfFuel => .outOfFuel)
          | .panicked => .panicked
          | .outOfFuel => .outOfFuel)
      | .fail => .fail
      | .panicked => .panicked
      | .outOfFuel => .outOfFuel)
    | .fail => .fail
    | .panicked => .panicked
    | .outOfFuel => .outOfFuel)
  | fuel + 1, .whileT, ts =>
    (match justP (Token.keyWord .kwWhile) ts with
    | .ok _ rest =>
      (match parseRun fuel .block rest with
      | .ok cond rest =>
        (match justP (Token.keyWord .kwDo) rest with
        | .ok _ rest =>
          (match parseRun fuel .block rest with
          | .ok body rest =>
            (match justP (Token.keyWord .kwEnd) rest with
            | .ok _ rest => .ok (.whl cond body) rest
            | .fail => .fail
            | .panicked => .panicked
            | .outOfFuel => .outOfFuel)
          | .fail => .fail
          | .panicked => .panicked
          | .outOfFuel => .outOfFuel)
        | .fail => .fail
        | .panicked => .panicked
        | .outOfFuel => .outOfFuel)
      | .fail => .fail
      | .panicked => .panicked
      | .outOfFuel => .outOfFuel)
    | .fail => .fail
    | .panicked => .panicked
    | .outOfFuel => .outOfFuel)
  | fuel + 1, .bindT, ts =>
    (match justP (Token.keyWord .kwBind) ts with
    | .ok _ rest =>
      (match manyP (fun ts2 =>
          match nameTypeP ts2 with
          | .ok b rest2 => .ok b rest2
          | .fail => ignoreP ts2
          | .panicked => .panicked
          | .outOfFuel => .outOfFuel) fuel rest with
      | .ok (b :: bs) rest =>
        (match justP (Token.keyWord .kwDo) rest with
        | .ok _ rest =>
          (match parseRun fuel .block rest with
          | .ok body rest =>
            (match justP (Token.keyWord .kwEnd) rest with
            | .ok _ rest => .ok (.bindNode (b :: bs) body) rest
            | .fail => .fail
            | .panicked => .panicked
            | .outOfFuel => .outOfFuel)
          | .fail => .fail
          | .panicked => .panicked
          | .outOfFuel => .outOfFuel)
        | .fail => .fail
        | .panicked => .panicked
        | .outOfFuel => .outOfFuel)
      | .ok [] _ => .fail
      | .fail => .fail
      | .panicked => .panicked
      | .outOfFuel => .outOfFuel)
    | .fail => .fail
    | .panicked => .panicked
    | .outOfFuel => .outOfFuel)

/-- The element alternation of `hir.rs::body`. -/
def bodyElementP (fuel : Nat) : List Token → PRes AstKind :=
  parseRun fuel .element

/-- `hir.rs::body`. -/
def bodyP (fuel : Nat) : List Token → PRes (List AstKind) :=
  parseRun fuel .block

/-- `hir.rs::proc`'s `signature`:
`ty().repeated().then(sig_sep.then(ty().repeated().at_least(1)).or_not())`. -/
def signatureP (fuel : Nat) (ts : List Token) : PRes Signature :=
  match manyP tyP fuel ts with
  | .ok ins rest =>
    (match justP Token.sigSep rest with
      | .ok _ rest2 =>
        match manyP tyP fuel rest2 with
        | .ok (t :: outs) rest3 => .ok ⟨ins, t :: outs⟩ rest3
        | .ok [] _ => .ok ⟨ins, []⟩ rest
        | .fail => .fail
        | .panicked => .panicked
        | .outOfFuel => .outOfFuel
      | .fail => .ok ⟨ins, []⟩ rest
      | .panicked => .panicked
      | .outOfFuel => .outOfFuel)
  | .fail => .fail
  | .panicked => .panicked
  | .outOfFuel => .outOfFuel

/-- `hir.rs::proc`: `proc` *name* *signature* `do` *body* `end`.  The span
component of the result is dropped (the model carries no spans). -/
def procP (fuel : Nat) (ts : List Token) : PRes (String × TopLevel) :=
  match justP (Token.keyWord .kwProc) ts with
  | .ok _ rest =>
    match identifierP rest with
    | .ok name rest =>
      match signatureP fuel rest with
      | .ok sig rest =>
        match justP (Token.keyWord .kwDo) rest with
        | .ok _ rest =>
          match bodyP fuel rest with
          | .ok body rest =>
            match justP (Token.keyWord .kwEnd) rest with
            | .ok _ rest => .ok (name, .proc ⟨sig, body⟩) rest
            | .fail => .fail
            | .panicked => .panicked
            | .outOfFuel => .outOfFuel
          | .fail => .fail
          | .panicked => .panicked
          | .outOfFuel => .outOfFuel
        | .fail => .fail
        | .panicked => .panicked
        | .outOfFuel => .outOfFuel
      | .fail => .fail
      | .panicked => .panicked
      | .outOfFuel => .outOfFuel
    | .fail => .fail
    | .panicked => .panicked
    | .outOfFuel => .outOfFuel
  | .fail => .fail
  | .panicked => .panicked
  | .outOfFuel => .outOfFuel

/-- `hir.rs::constant`: `const` *name* `:` *type* `do` *body* `end`. -/
def constantP (fuel : Nat) (ts : List Token) : PRes (String × TopLevel) :=
  match justP (Token.keyWord .kwConst) ts with
  | .ok _ rest =>
    match identifierP rest with
    | .ok name rest =>
      match justP Token.sigSep rest with
      | .ok _ rest =>
        match tyP rest with
        | .ok ty rest =>
          match justP (Token.keyWord .kwDo) rest with
          | .ok _ rest =>
            match bodyP fuel rest with
            | .ok body rest =>
              match justP (Token.keyWord .kwEnd) rest with
              | .ok _ rest => .ok (name, .konst ⟨body, ty⟩) rest
              | .fail => .fail
              | .panicked => .panicked
              | .outOfFuel => .outOfFuel
            | .fail => .fail
            | .panicked => .panicked
            | .outOfFuel => .outOfFuel
          | .fail => .fail
          | .panicked => .panicked
          | .outOfFuel => .outOfFuel
        | .fail => .fail
        | .panicked => .panicked
        | .outOfFuel => .outOfFuel
      | .fail => .fail
      | .panicked => .panicked
      | .outOfFuel => .outOfFuel
    | .fail => .fail
    | .panicked => .panicked
    | .outOfFuel => .outOfFuel
  | .fail => .fail
  | .panicked => .panicked
  | .outOfFuel => .outOfFuel

/-- The seventeen fixed intrinsic spellings of the grammar. -/
def intrinsicSpellings : List String :=
  ["drop", "dup", "swap", "over", "&?&", "&?", "print", "+", "-", "*",
   "divmod", "=", "!=", "<", "<=", ">", ">="]

/-- C7 (amended).  A token spelled like an intrinsic is always resolved in
favour of the intrinsic *inside a block body* (the element alternation tries
`intrinsic()` before `word()`, so such a token can never become a plain word
reference there) — but `identifier()`, which parses procedure, constant and
binding names, accepts every `Word` token with no exclusion, so the same
spelling *is* accepted as a procedure or constant name (see the
counterexample). -/
theorem intrinsic_spellings_resolution (s : String)
    (hs : s ∈ intrinsicSpellings) (fuel : Nat) (rest : List Token) :
    (∃ i, intrOfSpelling s = some i ∧
      bodyElementP (fuel + 1) (Token.word s :: rest) = .ok (.intrinsic i) rest) ∧
    identifierP (Token.word s :: rest) = .ok s rest := by
  fin_cases hs <;> exact ⟨⟨_, rfl, rfl⟩, rfl⟩

/-- C7 witness: the spelling `drop` in a block body parses as the intrinsic,
never as a word, while `identifier` accepts it verbatim. -/
theorem intrinsic_spellings_resolution_witness :
    "drop" ∈ intrinsicSpellings ∧
    ((∃ i, intrOfSpelling "drop" = some i ∧
       bodyElementP 6 [Token.word "drop"] = .ok (.intrinsic i) []) ∧
     identifierP [Token.word "drop"] = .ok "drop" []) :=
  ⟨by decide, intrinsic_spellings_resolution "drop" (by decide) 5 []⟩

/-- C7 counterexample: the parser accepts intrinsic spellings as procedure
and constant names — `proc print do end` parses, naming the procedure
`print`, and `const drop : uint do end` parses, naming the constant `drop`,
contradicting the claim that an intrinsic spelling can never be accepted as
a procedure or constant name. -/
theorem intrinsic_name_accepted :
    procP 9 [Token.keyWord .kwProc, Token.word "print", Token.keyWord .kwDo,
      Token.keyWord .kwEnd] =
      .ok ("print", TopLevel.proc ⟨⟨[], []⟩, []⟩) [] ∧
    constantP 9 [Token.keyWord .kwConst, Token.word "drop", Token.sigSep,
      Token.word "uint", Token.keyWord .kwDo, Token.keyWord .kwEnd] =
      .ok ("drop", TopLevel.konst ⟨[], .u64⟩) [] :=
  ⟨rfl, rfl⟩

/-! ### Lexer escape handling (claim C8)

`lexer.rs` processes escapes in two places: the `escaped` combinator for
character literals (lines 88–94) and the byte loop over a string literal's
content (lines 101–126).  Both `panic!` on an unknown escape — neither
constructs a lexical error value.  `StrLexResult.lexError` exists in the
model only so the claimed behaviour is expressible; the embedding never
produces it. -/

/-- Outcome of lexing one string literal's content. -/
inductive StrLexResult where
  | token (s : List Char)
  | lexError
  | panicked
deriving Repr, DecidableEq

/-- The `escaped` combinator's mapping for character literals:
`\n`, `\r`, `\t`, `\\` translate; anything else is
`panic!("Invalid escape sequence")`, modelled as `none`. -/
def escapedChar (c : Char) : Option Char :=
  if c = 'n' then some '\n'
  else if c = 'r' then some '\r'
  else if c = 't' then some '\t'
  else if c = '\\' then some '\\'
  else none

/-- The escape-processing loop over a string literal's content (the `escape`
flag threads exactly as in the Rust `for` loop); `none` models the
`panic!("Invalid escape sequence \{}!")` arm. -/
def strEscLoop : Bool → List Char → Option (List Char)
  | _, [] => some []
  | true, b :: rest =>
    if b = 'n' then (strEscLoop false rest).map ('\n' :: ·)
    else if b = 'r' then (strEscLoop false rest).map ('\r' :: ·)
    else if b = 't' then (strEscLoop false rest).map ('\t' :: ·)
    else if b = '\\' then (strEscLoop false rest).map ('\\' :: ·)
    else none
  | false, b :: rest =>
    if b = '\\' then strEscLoop true rest
    else (strEscLoop false rest).map (b :: ·)

/-- Lexing the content between the quotes of a string literal. -/
def lexStringBody (content : List Char) : StrLexResult :=
  match strEscLoop false content with
  | some cs => .token cs
  | none => .panicked

/-- C8 (amended).  A string or character literal containing a backslash
escape outside `\n \r \t \\` makes lexing fail by `panic!` (a process
abort carrying no source range) — not by a reported lexical error. -/
theorem invalid_escape_panics (u v : List Char) (c : Char)
    (hu : u.all (· ≠ '\\') = true)
    (hc : c ≠ 'n' ∧ c ≠ 'r' ∧ c ≠ 't' ∧ c ≠ '\\') :
    lexStringBody (u ++ '\\' :: c :: v) = .panicked ∧
    escapedChar c = none := by
  constructor
  · have key : strEscLoop false (u ++ '\\' :: c :: v) = none := by
      induction u with
      | nil =>
        simp only [List.nil_append, strEscLoop, if_pos rfl]
        simp [strEscLoop, hc.1, hc.2.1, hc.2.2.1, hc.2.2.2]
      | cons a u ih =>
        simp only [List.all_cons, Bool.and_eq_true, decide_eq_true_eq] at hu
        simp only [List.cons_append, strEscLoop, if_neg hu.1]
        rw [List.append_eq, ih hu.2]
        rfl
    simp [lexStringBody, key]
  · simp [escapedChar, hc.1, hc.2.1, hc.2.2.1, hc.2.2.2]

/-- C8 witness: the escape `\q` inside `"a\q"`. -/
theorem invalid_escape_panics_witness :
    (['a'].all (· ≠ '\\') = true) ∧
    ('q' ≠ 'n' ∧ 'q' ≠ 'r' ∧ 'q' ≠ 't' ∧ 'q' ≠ '\\') ∧
    (lexStringBody (['a'] ++ '\\' :: 'q' :: []) = .panicked ∧
      escapedChar 'q' = none) :=
  ⟨by decide, by decide,
    invalid_escape_panics ['a'] [] 'q' (by decide) (by decide)⟩

/-- C8 counterexample: on the content `\q` the lexer panics; it does not
produce a reported lexical error of any kind, contradicting the claimed
failure mode. -/
theorem invalid_escape_not_lex_error :
    lexStringBody ['\\', 'q'] = .panicked ∧
    lexStringBody ['\\', 'q'] ≠ .lexError := by
  exact ⟨rfl, by decide⟩

/-! ### The assembly emitter (claim C9)

`emit.rs::compile` is a later snapshot than `lir.rs`, with a wider `Op`
vocabulary (memories, syscalls, bindings, locals / escaping stacks) and an
`IConst` with `Char` and `Ptr` arms, so the emitter is embedded over its own
`EOp` / `EIConst` types.  Each arm writes one fixed text block; the
`; {:?}` debug-comment lines (the Rust `Debug` rendering of the very
instruction being emitted, so themselves context-free) are omitted from the
embedding, which keeps only the assembly-bearing lines.  The three Rust
panics are modelled as `none`: `JumpT(_) => todo!("Jump if true")`,
`Push(IConst::Str(_)) => unreachable!()`, and the `strings[*i]` index in the
`PushStr` arm when `i` is out of range. -/

/-- `IConst` as the emitter snapshot sees it. -/
inductive EIConst where
  | bool (b : Bool)
  | char (c : Char)
  | u64 (n : Nat)
  | i64 (i : Int)
  | ptr (p : Nat)
  | str (s : String)
deriving Repr, DecidableEq

/-- The emitter snapshot's `Op` vocabulary (one constructor per `match` arm
of `emit.rs::compile`). -/
inductive EOp where
  | pushMem (nm : String)
  | pushStr (i : Nat)
  | push (c : EIConst)
  | dup
  | swap
  | over
  | drop
  | reserveEscaping (n : Nat)
  | pushEscaping (n : Nat)
  | reserveLocals (n : Nat)
  | freeLocals (n : Nat)
  | pushLvar (o : Nat)
  | bind
  | useBinding (offset : Nat)
  | unbind
  | readU64
  | readU8
  | writeU64
  | writeU8
  | print
  | syscall0
  | syscall1
  | syscall2
  | syscall3
  | syscall4
  | syscall5
  | syscall6
  | argc
  | argv
  | sub
  | add
  | divmod
  | mul
  | ne
  | lt
  | ge
  | le
  | gt
  | eq
  | ret
  | call (p : String)
  | exit
  | proc (l : String)
  | label (l : String)
  | jumpF (l : String)
  | jump (l : String)
  | dump
  | jumpT (l : String)
deriving Repr, DecidableEq

/-- Rust `Display` of an `i64` value. -/
def intRepr (i : Int) : String :=
  if i < 0 then "-" ++ decRepr i.natAbs else decRepr i.natAbs

/-- The shared `mov rax, <imm>; push rax` block of the `Push` arm. -/
def asmPushImm (imm : String) : String :=
  "    mov rax, " ++ imm ++ "\n    push rax\n"

/-- The fixed expansion of one instruction (`none` = the arm panics).
Depends only on the instruction and the string pool — by construction it is
context-free in the surrounding instruction sequence. -/
def emitOp (op : EOp) (strings : List String) : Option String :=
  match op with
  | .pushMem nm => some ("    push mem_" ++ nm ++ "\n")
  | .pushStr i =>
    (match strings[i]? with
     | some s => some ("    push " ++ decRepr s.utf8ByteSize ++ "\n    push str_"
         ++ decRepr i ++ "\n")
     | none => none)
  | .push c =>
    (match c with
     | .bool b => some (asmPushImm (decRepr (if b then 1 else 0)))
     | .char ch => some (asmPushImm (decRepr ch.toNat))
     | .u64 u => some (asmPushImm (decRepr u))
     | .i64 i => some (asmPushImm (intRepr i))
     | .ptr p => some (asmPushImm (decRepr p))
     | .str _ => none)
  | .dup => some "    pop rax\n    push rax\n    push rax\n"
  | .swap => some "    pop rax\n    pop rbx\n    push rax\n    push rbx\n"
  | .over => some "    pop rax\n    pop rbx\n    push rbx\n    push rax\n    push rbx\n"
  | .drop => some "    pop rax\n"
  | .reserveEscaping n =>
    some ("    mov rax, " ++ decRepr n ++ "\n    sub [escaping_stack_sp], rax\n")
  | .pushEscaping n =>
    some ("    mov rax, " ++ decRepr n
      ++ "\n    mov rbx, [escaping_stack_sp]\n    add rbx, rax\n    push rbx\n")
  | .reserveLocals n =>
    some ("    mov rax, " ++ decRepr n ++ "\n    sub [locals_stack_sp], rax\n")
  | .freeLocals n =>
    some ("    mov rax, " ++ decRepr n ++ "\n    add [locals_stack_sp], rax\n")
  | .pushLvar o =>
    some ("    mov rax, " ++ decRepr o
      ++ "\n    mov rbx, [locals_stack_sp]\n    add rbx, rax\n    push rbx\n")
  | .bind =>
    some ("    pop rbx\n    mov rax, 8\n    sub [ret_stack_rsp], rax\n"
      ++ "    mov QWORD rax, [ret_stack_rsp]\n    mov QWORD [rax], rbx\n")
  | .useBinding offset =>
    some ("    mov rax, 8 * " ++ decRepr offset
      ++ "\n    mov QWORD rbx, [ret_stack_rsp]\n    add rbx, rax\n"
      ++ "    mov QWORD rax, [rbx]\n    push rax\n")
  | .unbind => some "    mov rax, 8\n    add [ret_stack_rsp], rax\n"
  | .readU64 => some "    pop rax\n    mov rbx, [rax]\n    push rbx\n"
  | .readU8 => some "    pop rax\n    xor rbx, rbx\n    mov bl, [rax]\n    push rbx\n"
  | .writeU64 => some "    pop rax\n    pop rbx\n    mov [rax], rbx\n"
  | .writeU8 => some "    pop rax\n    pop rbx\n    mov [rax], bl\n"
  | .print => some "    pop rdi\n    call print\n"
  | .syscall0 => some "    pop rax\n    syscall\n    push rax\n"
  | .syscall1 => some "    pop rax\n    pop rdi\n    syscall\n    push rax\n"
  | .syscall2 => some "    pop rax\n    pop rdi\n    pop rsi\n    syscall\n    push rax\n"
  | .syscall3 =>
    some "    pop rax\n    pop rdi\n    pop rsi\n    pop rdx\n    syscall\n    push rax\n"
  | .syscall4 =>
    some ("    pop rax\n    pop rdi\n    pop rsi\n    pop rdx\n    pop r10\n"
      ++ "    syscall\n    push rax\n")
  | .syscall5 =>
    some ("    pop rax\n    pop rdi\n    pop rsi\n    pop rdx\n    pop r10\n"
      ++ "    pop r8\n    syscall\n    push rax\n")
  | .syscall6 =>
    some ("    pop rax\n    pop rdi\n    pop rsi\n    pop rdx\n    pop r10\n"
      ++ "    pop r8\n    pop r9\n    syscall\n    push rax\n")
  | .argc => some "    mov rax, [argc]\n    push rax\n"
  | .argv => some "mov rax, [argv]\npush rax\n"
  | .sub => some "    pop rax\n    pop rbx\n    sub rbx, rax\n    push rbx\n"
  | .add => some "    pop rax\n    pop rbx\n    add rbx, rax\n    push rbx\n"
  | .divmod =>
    some "    xor rdx, rdx\n    pop rbx\n    pop rax\n    div rbx\n    push rax\n    push rdx\n"
  | .mul => some "    pop rax\n    pop rbx\n    mul rbx\n    push rax\n"
  | .ne =>
    some ("    mov rcx, 0\n    mov rdx, 1\n    pop rbx\n    pop rax\n"
      ++ "    cmp rax, rbx\n    cmovne rcx, rdx\n    push rcx\n")
  | .lt =>
    some ("    mov rcx, 0\n    mov rdx, 1\n    pop rbx\n    pop rax\n"
      ++ "    cmp rax, rbx\n    cmovl rcx, rdx\n    push rcx\n")
  | .ge =>
    some ("    mov rcx, 0\n    mov rdx, 1\n    pop rbx\n    pop rax\n"
      ++ "    cmp rax, rbx\n    cmovge rcx, rdx\n    push rcx\n")
  | .le =>
    some ("    mov rcx, 0\n    mov rdx, 1\n    pop rbx\n    pop rax\n"
      ++ "    cmp rax, rbx\n    cmovle rcx, rdx\n    push rcx\n")
  | .gt =>
    some ("    mov rcx, 0\n    mov rdx, 1\n    pop rbx\n    pop rax\n"
      ++ "    cmp rax, rbx\n    cmovg rcx, rdx\n    push rcx\n")
  | .eq =>
    some ("    mov rcx, 0\n    mov rdx, 1\n    pop rbx\n    pop rax\n"
      ++ "    cmp rax, rbx\n    cmove rcx, rdx\n    push rcx\n")
  | .ret =>
    some ("; load return adderss\n    mov QWORD rax, [ret_stack_rsp]\n"
      ++ "    mov QWORD rdi, [rax]\n    mov rax, 8\n    add [ret_stack_rsp], rax\n"
      ++ "    push rdi\n    ret\n")
  | .call p => some ("    call " ++ p ++ "\n")
  | .exit => some "    pop rdi\n    mov rax, 60\n    syscall\n"
  | .proc l =>
    some (l ++ ":\n; save return address\n    pop rdi\n    mov rax, 8\n"
      ++ "    sub [ret_stack_rsp], rax\n    mov QWORD rax, [ret_stack_rsp]\n"
      ++ "    mov QWORD [rax], rdi\n")
  | .label l => some (l ++ ":\n")
  | .jumpF l => some ("    pop rax\n    test rax, rax\n    jz " ++ l ++ "\n")
  | .jump l => some ("    jmp " ++ l ++ "\n")
  | .dump => some ""
  | .jumpT _ => none

/-- Whether an arm of `emit.rs::compile` panics on this instruction. -/
def emitPanics (op : EOp) (strings : List String) : Bool :=
  match op with
  | .jumpT _ => true
  | .push (.str _) => true
  | .pushStr i => decide (strings.length ≤ i)
  | _ => false

/-- The instruction loop: concatenate the expansions, stopping at the first
panicking instruction. -/
def emitOps (ops : List EOp) (strings : List String) : Option String :=
  match ops with
  | [] => some ""
  | op :: rest =>
    (match emitOp op strings with
     | some s => (emitOps rest strings).map (s ++ ·)
     | none => none)

/-- The fixed prologue written before the instruction loop. -/
def emitHeader : String :=
  "BITS 64\nsection .text\nglobal _start\nextern print\n\n_start:\n"
    ++ "    mov QWORD [ret_stack_rsp], ret_stack_end\n"
    ++ "    mov QWORD [locals_stack_sp], locals_stack_end\n"
    ++ "    mov QWORD [escaping_stack_sp], escaping_stack_end\n"
    ++ "    ; set up args\n    pop rax\n    mov [argc], rax\n    mov [argv], rsp\n\n"

/-- One `str_<i>: db <bytes>` entry of the data section. -/
def dataEntry (i : Nat) (s : String) : String :=
  "str_" ++ decRepr i ++ ":\n    db "
    ++ String.intercalate "," (s.toUTF8.toList.map (fun b => decRepr b.toNat)) ++ "\n"

/-- The data section over the whole string pool. -/
def dataSection (strings : List String) : String :=
  "section .data\n"
    ++ String.join (strings.enum.map (fun p => dataEntry p.1 p.2))

/-- The fixed `.bss` block. -/
def bssSection : String :=
  "section .bss\n    ret_stack_rsp: resq 1\n    ret_stack: resb 65536\n"
    ++ "    ret_stack_end:\n    locals_stack_sp: resq 1\n    locals_stack: resb 65536\n"
    ++ "    locals_stack_end:\n    escaping_stack_sp: resq 1\n"
    ++ "    escaping_stack: resb 65536\n    escaping_stack_end:\n"
    ++ "    argc: resq 1\n    argv: resq 1\n"

/-- The static-memory reservations (`mems` traversed in list order). -/
def memsSection (mems : List (String × Nat)) : String :=
  String.join (mems.map (fun p => "mem_" ++ p.1 ++ ":\n    resb " ++ decRepr p.2 ++ "\n"))

/-- `emit.rs::compile` as a pure function: `none` models a panic; with the
sink abstracted away, I/O failures are outside the function. -/
def emitUnit (ops : List EOp) (strings : List String)
    (mems : List (String × Nat)) : Option String :=
  match emitOps ops strings with
  | none => none
  | some body =>
    some (emitHeader ++ body ++ dataSection strings ++ bssSection ++ memsSection mems)

theorem optionIsSomeMap (f : String → String) (o : Option String) :
    (Option.map f o).isSome = o.isSome := by
  cases o <;> rfl

theorem emitOps_isSome (strings : List String) :
    ∀ ops : List EOp,
      (emitOps ops strings).isSome = ops.all (fun o => !emitPanics o strings) := by
  intro ops
  induction ops with
  | nil => rfl
  | cons op rest ih =>
    simp only [emitOps, List.all_cons]
    cases op with
    | pushStr i =>
      cases h : strings[i]? with
      | none =>
        have hlen : strings.length ≤ i := by
          by_contra hlt
          rw [List.getElem?_eq_getElem (Nat.lt_of_not_le hlt)] at h
          exact Option.noConfusion h
        simp [emitOp, h, emitPanics, hlen]
      | some s =>
        have hlt : i < strings.length := by
          by_contra hge
          rw [List.getElem?_eq_none (Nat.le_of_not_lt hge)] at h
          exact Option.noConfusion h
        have hps : emitPanics (EOp.pushStr i) strings = false := by
          simp [emitPanics, Nat.not_le.mpr hlt]
        simp only [emitOp, h, optionIsSomeMap, ih, hps, Bool.not_false, Bool.true_and]
    | push c =>
      cases c <;> simp [emitOp, emitPanics, optionIsSomeMap, ih]
    | jumpT l => simp [emitOp, emitPanics]
    | _ => simp [emitOp, emitPanics, optionIsSomeMap, ih]

/-- C9 (amended).  Each instruction's expansion is a fixed text block that is
context-free in the surrounding sequence (`emitOp` takes only the instruction
and the string pool), but the emitter is NOT panic-free: `JumpT` always
panics (`todo!`), `Push` of a string immediate always panics
(`unreachable!`), and `PushStr` with an out-of-range pool index panics on the
slice access; on every other instruction emission succeeds, so a unit emits
iff no instruction falls in those three cases — only then are failures
limited to I/O on the sink. -/
theorem emitter_failure_characterization (op : EOp) (ops : List EOp)
    (strings : List String) (mems : List (String × Nat)) :
    (emitOp op strings).isSome = !emitPanics op strings ∧
    (emitUnit ops strings mems).isSome = ops.all (fun o => !emitPanics o strings) := by
  constructor
  · cases op with
    | pushStr i =>
      cases h : strings[i]? with
      | none =>
        have hlen : strings.length ≤ i := by
          by_contra hlt
          rw [List.getElem?_eq_getElem (Nat.lt_of_not_le hlt)] at h
          exact Option.noConfusion h
        simp [emitOp, h, emitPanics, hlen]
      | some s =>
        have hlt : i < strings.length := by
          by_contra hge
          rw [List.getElem?_eq_none (Nat.le_of_not_lt hge)] at h
          exact Option.noConfusion h
        simp [emitOp, h, emitPanics, Nat.not_le.mpr hlt]
    | push c => cases c <;> rfl
    | _ => rfl
  · rw [← emitOps_isSome strings ops]
    unfold emitUnit
    cases emitOps ops strings <;> rfl

/-- C9 counterexample: the forward conditional jump is `todo!("Jump if
true")` — feeding the emitter a `JumpT` panics with no I/O involved (while a
panic-free sequence emits fine). -/
theorem jumpT_emit_panics :
    emitOp (.jumpT ".main0") [] = none ∧
    emitUnit [.jumpT ".main0"] [] [] = none ∧
    emitUnit [.call "main", .exit] [] [] ≠ none ∧
    emitOp (.push (.str "s")) [] = none ∧
    emitOp (.pushStr 0) [] = none := by
  refine ⟨rfl, rfl, ?_, rfl, rfl⟩
  intro h
  have hsome : (emitUnit [.call "main", .exit] [] []).isSome = true := rfl
  rw [h] at hsome
  exact Bool.noConfusion hsome

/-! ### Numeric literals (claim C10) -/

/-- C10.  A numeric-literal token whose decimal digit string denotes a value
above `2^64 - 1` makes the HIR body parser panic (`parse::<u64>().unwrap()`),
rather than fail with a structured parse error or wrap the value. -/
theorem num_literal_overflow_panics (s : String) (rest : List Token)
    (hdig : s.data.all Char.isDigit = true) (hne : s.data ≠ [])
    (hbig : 2 ^ 64 - 1 < decVal s.data) :
    parseU64 s = none ∧ numP (Token.num s :: rest) = .panicked := by
  have hp : parseU64 s = none := by
    simp only [parseU64, if_pos (And.intro hne hdig)]
    rw [if_neg]
    omega
  exact ⟨hp, by simp [numP, hp]⟩

/-- C10 witness: the literal `18446744073709551616` (that is, `2^64`). -/
theorem num_literal_overflow_panics_witness :
    ("18446744073709551616".data.all Char.isDigit = true) ∧
    ("18446744073709551616".data ≠ []) ∧
    (2 ^ 64 - 1 < decVal "18446744073709551616".data) ∧
    (parseU64 "18446744073709551616" = none ∧
      numP [Token.num "18446744073709551616"] = .panicked) :=
  ⟨by decide, by decide, by decide,
    num_literal_overflow_panics "18446744073709551616" [] (by decide)
      (by decide) (by decide)⟩

end Rotth
